import Mathlib

/-!
Verification of the byfood normalization/validation core.

This file gives a shallow embedding of the two engines of the repository:

* the Book field validator/normalizer (`internal/app`: `validateAndNormalizeCreate`,
  `validateAndNormalizeUpdate`, `isValidISBN`, `isValidISBN10`, `isValidISBN13`,
  `normalizeISBN`, `hasMax2Decimals`, `ValidationError.add`), and
* the URL cleanup engine (`internal/adapters/http`: `processURL`,
  `applyRedirection`, `needsWWW`) together with the parts of Go's `net/url`
  it relies on (`url.Parse`, `URL.String`, `URL.Query`, `Values.Encode`).

Modelling conventions:

* A Go string is a byte sequence; we embed it as `List Nat` (each entry a byte
  value).  `Go len`, byte indexing and byte comparisons are then literal.
  ASCII-only case mapping and whitespace trimming are used (the repository's
  validation logic only distinguishes ASCII bytes; Go's Unicode-aware
  `ToUpper`/`TrimSpace` agree with the byte-level maps on every byte that can
  influence a validation verdict).
* A Go `float64` is embedded as an exact extended rational: `NaN`, `±Inf`, or
  a numerator/denominator pair evaluated exactly.  IEEE-754 rounding noise is
  outside the model; the comparisons and the `math.Round` tie-away-from-zero
  rule are modelled exactly.
* Go's `map[string]string` used by `ValidationError` is embedded as an
  insertion-ordered association list (first write per key wins, as in the
  source's `add`).
* `net/url` is not part of the repository; it is modelled from its documented
  behaviour for the URL shapes this engine handles: absolute URLs with an
  authority, no percent-escaping inside scheme/host/path, no userinfo
  semantics beyond stripping, no opaque forms (which the engine rejects anyway
  because their host is empty).
-/

/-! ## Go strings as byte sequences -/

/-- A Go string: a list of byte values. -/
abbrev GoStr := List Nat

/-- UTF-8 encoding of one character, as byte values. -/
def utf8Enc (c : Char) : List Nat :=
  let n := c.toNat
  if n < 128 then [n]
  else if n < 2048 then [192 + n / 64, 128 + n % 64]
  else if n < 65536 then [224 + n / 4096, 128 + n / 64 % 64, 128 + n % 64]
  else [240 + n / 262144, 128 + n / 4096 % 64, 128 + n / 64 % 64, 128 + n % 64]

/-- A Lean string literal as the byte sequence Go would store for it. -/
def bs (s : String) : GoStr :=
  (s.toList.map utf8Enc).flatten

/-- ASCII whitespace bytes (the bytes `strings.TrimSpace` strips in the ASCII
range: tab, LF, VT, FF, CR, space). -/
def isSpaceB (b : Nat) : Bool := b == 32 || (9 ≤ b && b ≤ 13)

/-- `strings.TrimSpace` restricted to ASCII whitespace. -/
def trimSpace (s : GoStr) : GoStr :=
  ((s.dropWhile isSpaceB).reverse.dropWhile isSpaceB).reverse

/-- ASCII byte-level lower-casing (as `strings.ToLower` acts on ASCII bytes). -/
def toLowerB (b : Nat) : Nat := if 65 ≤ b ∧ b ≤ 90 then b + 32 else b

/-- ASCII byte-level upper-casing (as `strings.ToUpper` acts on ASCII bytes). -/
def toUpperB (b : Nat) : Nat := if 97 ≤ b ∧ b ≤ 122 then b - 32 else b

/-- `strings.HasPrefix`. -/
def startsWithB (s pre : GoStr) : Bool := s.take pre.length == pre

/-- `strings.HasSuffix`. -/
def endsWithB (s suf : GoStr) : Bool :=
  suf.length ≤ s.length && s.drop (s.length - suf.length) == suf

/-- `strings.TrimSuffix`: remove one copy of `suf` if `s` ends with it. -/
def trimSuffixB (s suf : GoStr) : GoStr :=
  if endsWithB s suf then s.take (s.length - suf.length) else s

/-- Number of UTF-8 encoded characters in a byte string (bytes that are not
UTF-8 continuation bytes). -/
def utf8CharCount (s : GoStr) : Nat :=
  (s.filter (fun b => decide (b < 128 ∨ 192 ≤ b))).length

/-! ## The error accumulator (`ValidationError`) -/

/-- `ValidationError.Fields`, embedded as an insertion-ordered association
list from field name to message. -/
abbrev Errs := List (GoStr × GoStr)

/-- Lookup of the message recorded for a field. -/
def findMsg (f : GoStr) (es : Errs) : Option GoStr :=
  (es.find? (fun p => p.1 == f)).map (fun p => p.2)

/-- `ValidationError.add`: record `m` for `f` unless `f` already has a
message (first error per field wins). -/
def addErr (es : Errs) (f m : GoStr) : Errs :=
  match findMsg f es with
  | some _ => es
  | none => es ++ [(f, m)]

/-- `ValidationError.ok`: no field has an error. -/
def errsOk (es : Errs) : Bool := es.length == 0

/-! ## Go float64 values, embedded exactly -/

/-- A Go `float64`, embedded as an exact extended rational: `NaN`, `±Inf`,
or `finite num den` denoting the exact value `num / den` (`den` positive at
every use site). -/
inductive GoFloat where
  | nan : GoFloat
  | inf : Bool → GoFloat
  | finite : Int → Nat → GoFloat
deriving DecidableEq

/-- Go `<` on float64 (false whenever either side is NaN). -/
def GoFloat.flt : GoFloat → GoFloat → Bool
  | .nan, _ => false
  | _, .nan => false
  | .inf true, .inf true => false
  | .inf true, _ => true
  | .inf false, _ => false
  | .finite _ _, .inf true => false
  | .finite _ _, .inf false => true
  | .finite n1 d1, .finite n2 d2 => n1 * (d2 : Int) < n2 * (d1 : Int)

/-- Round a nonnegative rational `x / d` to the nearest natural, halves up. -/
def natRoundHalf (x d : Nat) : Nat := (2 * x + d) / (2 * d)

/-- `math.Round` (round half away from zero) applied to the exact rational
`num / den`. -/
def mathRound (num : Int) (den : Nat) : Int :=
  if 0 ≤ num then (natRoundHalf num.toNat den : Nat)
  else -(natRoundHalf (-num).toNat den : Nat)

/-- `hasMax2Decimals`: false for NaN/±Inf; otherwise scale by 100, round to
the nearest integer, and accept iff the distance is below `1e-9`.  The
comparison `|num*100/den - r| < 1/10^9` is cross-multiplied by the positive
denominator. -/
def hasMax2Decimals : GoFloat → Bool
  | .nan => false
  | .inf _ => false
  | .finite num den =>
      let r := mathRound (num * 100) den
      (num * 100 - r * (den : Int)).natAbs * 1000000000 < den

/-! ## ISBN validation -/

/-- ASCII digit byte. -/
def isDigitB (b : Nat) : Bool := 48 ≤ b && b ≤ 57

/-- The regular expression `^\d{9}[\dX]$` (`reIsbn10`). -/
def reIsbn10Match (s : GoStr) : Bool :=
  s.length == 10 && (s.take 9).all isDigitB &&
    (isDigitB (s.getD 9 0) || s.getD 9 0 == 88)

/-- The regular expression `^\d{13}$` (`reIsbn13`). -/
def reIsbn13Match (s : GoStr) : Bool :=
  s.length == 13 && s.all isDigitB

/-- `normalizeISBN`: drop spaces and hyphens, upper-case.  (The source
removes separators with two `ReplaceAll` passes and then upper-cases; on byte
strings this is a filter followed by a byte map.) -/
def normalizeISBN (s : GoStr) : GoStr :=
  (s.filter (fun b => b != 32 && b != 45)).map toUpperB

/-- The ISBN-10 weighted-sum loop: weight `w` on the head, decreasing. -/
def isbn10Sum : Nat → GoStr → Nat
  | _, [] => 0
  | w, b :: rest => w * (b - 48) + isbn10Sum (w - 1) rest

/-- `isValidISBN10`. -/
def isValidISBN10 (s : GoStr) : Bool :=
  if !reIsbn10Match s then false
  else
    let sum9 := isbn10Sum 10 (s.take 9)
    let last := s.getD 9 0
    let sum := if last == 88 then sum9 + 10 else sum9 + (last - 48)
    sum % 11 == 0

/-- The ISBN-13 alternating-weight loop: position `i` on the head,
increasing; even positions weigh 1, odd positions weigh 3. -/
def isbn13Sum : Nat → GoStr → Nat
  | _, [] => 0
  | i, b :: rest =>
      (if i % 2 == 0 then b - 48 else (b - 48) * 3) + isbn13Sum (i + 1) rest

/-- `isValidISBN13`. -/
def isValidISBN13 (s : GoStr) : Bool :=
  if !reIsbn13Match s then false
  else
    let sum := isbn13Sum 0 (s.take 12)
    let check := (10 - sum % 10) % 10
    check == s.getD 12 0 - 48

/-- `isValidISBN`: normalize, then dispatch on the byte length. -/
def isValidISBN (s : GoStr) : Bool :=
  let n := normalizeISBN s
  if n.length == 10 then isValidISBN10 n
  else if n.length == 13 then isValidISBN13 n
  else false

/-- `isValidFourDigitYearInt` (`minYear = 1000`, `maxYear = 9999`). -/
def isValidFourDigitYearInt (y : Int) : Bool := 1000 ≤ y && y ≤ 9999

/-! ## Spec-side ISBN predicate (for the refinement claim C3).

These definitions follow the specification's words, to be compared with the
source-derived `isValidISBN`. -/

/-- Digit value of the byte at index `i`. -/
def isbnDigit (s : GoStr) (i : Nat) : Nat := s.getD i 0 - 48

/-- Spec: `sum = Σ_{i=0..8} (10-i)·digit(i)`. -/
def specIsbn10Sum (s : GoStr) : Nat :=
  (Finset.range 9).sum (fun i => (10 - i) * isbnDigit s i)

/-- Spec: a 10-character candidate of 9 digits then a digit or `X`, whose
weighted sum (plus 10 for a trailing `X`, else the last digit) is divisible
by 11. -/
def specValidISBN10 (s : GoStr) : Prop :=
  s.length = 10 ∧ (∀ i < 9, isDigitB (s.getD i 0)) ∧
    (isDigitB (s.getD 9 0) ∨ s.getD 9 0 = 88) ∧
    11 ∣ specIsbn10Sum s + (if s.getD 9 0 = 88 then 10 else isbnDigit s 9)

/-- Spec: `sum = Σ_{i=0..11} digit(i)·(1 if i even else 3)`. -/
def specIsbn13Sum (s : GoStr) : Nat :=
  (Finset.range 12).sum (fun i => (if i % 2 = 0 then 1 else 3) * isbnDigit s i)

/-- Spec: a 13-digit candidate whose check digit equals
`(10 - (sum mod 10)) mod 10`. -/
def specValidISBN13 (s : GoStr) : Prop :=
  s.length = 13 ∧ (∀ i < 13, isDigitB (s.getD i 0)) ∧
    (10 - specIsbn13Sum s % 10) % 10 = isbnDigit s 12

/-- Spec: valid iff the normalized form passes the ISBN-10 or the ISBN-13
checksum. -/
def specValidISBN (n : GoStr) : Prop := specValidISBN10 n ∨ specValidISBN13 n

/-! ## The Book validators -/

/-- `ports.CreateBookInput`. -/
structure CreateBookInput where
  title : GoStr
  author : GoStr
  isbn : GoStr
  price : GoFloat
  publicationYear : Int
deriving DecidableEq

/-- `ports.UpdateBookInput` (every field an explicit optional). -/
structure UpdateBookInput where
  title : Option GoStr
  author : Option GoStr
  isbn : Option GoStr
  price : Option GoFloat
  publicationYear : Option Int
deriving DecidableEq

/-- The title block shared by both validators: trim already applied;
required, then the 120-byte limit. -/
def titleCheck (es : Errs) (title : GoStr) : Errs :=
  if title = [] then addErr es (bs "title") (bs "Title is required")
  else if 120 < title.length then
    addErr es (bs "title") (bs "Title must be ≤ 120 characters")
  else es

/-- The author block: required, then the 80-byte limit. -/
def authorCheck (es : Errs) (author : GoStr) : Errs :=
  if author = [] then addErr es (bs "author") (bs "Author is required")
  else if 80 < author.length then
    addErr es (bs "author") (bs "Author must be ≤ 80 characters")
  else es

/-- The ISBN block: required, then the checksum. -/
def isbnCheck (es : Errs) (isbn0 : GoStr) : Errs :=
  if isbn0 = [] then addErr es (bs "isbn") (bs "ISBN is required")
  else if !isValidISBN isbn0 then
    addErr es (bs "isbn") (bs "Invalid ISBN (must be ISBN-10 or ISBN-13)")
  else es

/-- The create-mode publication-year block: zero is "missing", then the
four-digit range. -/
def yearCheckCreate (es : Errs) (y : Int) : Errs :=
  if y = 0 then addErr es (bs "publication_year") (bs "Publication year is required")
  else if !isValidFourDigitYearInt y then
    addErr es (bs "publication_year") (bs "Publication year must be a 4-digit number")
  else es

/-- The update-mode publication-year block (no zero-as-missing rule). -/
def yearCheckUpdate (es : Errs) (y : Int) : Errs :=
  if !isValidFourDigitYearInt y then
    addErr es (bs "publication_year") (bs "Publication year must be a 4-digit number")
  else es

/-- The price block shared by both validators: nonnegative, at most one
million, at most two decimals (in source order). -/
def priceCheck (es : Errs) (p : GoFloat) : Errs :=
  if GoFloat.flt p (.finite 0 1) then addErr es (bs "price") (bs "Price must be ≥ 0")
  else if GoFloat.flt (.finite 1000000 1) p then
    addErr es (bs "price") (bs "Price is too large")
  else if !hasMax2Decimals p then addErr es (bs "price") (bs "Max 2 decimal places")
  else es

/-- `validateAndNormalizeCreate`: trim/normalize each field and run the five
blocks in source order over one threaded error set; every field is checked
regardless of earlier failures.  Returns the (partially) normalized input
together with the error set (empty iff the source returns `nil` error). -/
def validateAndNormalizeCreate (inp : CreateBookInput) : CreateBookInput × Errs :=
  let title := trimSpace inp.title
  let author := trimSpace inp.author
  let isbn0 := trimSpace inp.isbn
  let isbn1 :=
    if isbn0 = [] then isbn0
    else if !isValidISBN isbn0 then isbn0
    else normalizeISBN isbn0
  let errs :=
    priceCheck
      (yearCheckCreate
        (isbnCheck (authorCheck (titleCheck [] title) author) isbn0)
        inp.publicationYear)
      inp.price
  ({ inp with title := title, author := author, isbn := isbn1 }, errs)

/-- The update-mode title block: absent means skip; the value is replaced by
its trimmed form only when it passes (the source writes through the pointer
only in the success branch). -/
def titlePatch (es : Errs) : Option GoStr → Option GoStr × Errs
  | none => (none, es)
  | some v =>
      let t := trimSpace v
      (if t = [] then some v else if 120 < t.length then some v else some t,
        titleCheck es t)

/-- The update-mode author block. -/
def authorPatch (es : Errs) : Option GoStr → Option GoStr × Errs
  | none => (none, es)
  | some v =>
      let a := trimSpace v
      (if a = [] then some v else if 80 < a.length then some v else some a,
        authorCheck es a)

/-- The update-mode ISBN block: on success the value becomes the normalized
trimmed ISBN. -/
def isbnPatch (es : Errs) : Option GoStr → Option GoStr × Errs
  | none => (none, es)
  | some v =>
      let s := trimSpace v
      (if s = [] then some v
       else if !isValidISBN s then some v
       else some (normalizeISBN s),
        isbnCheck es s)

/-- `validateAndNormalizeUpdate`: absent fields are skipped entirely;
present fields run the same blocks as create mode (year without the
zero-as-missing rule) and are normalized in place only on success. -/
def validateAndNormalizeUpdate (inp : UpdateBookInput) : UpdateBookInput × Errs :=
  let te := titlePatch [] inp.title
  let ae := authorPatch te.2 inp.author
  let ie := isbnPatch ae.2 inp.isbn
  let ye :=
    match inp.publicationYear with
    | none => ie.2
    | some y => yearCheckUpdate ie.2 y
  let pe :=
    match inp.price with
    | none => ye
    | some p => priceCheck ye p
  ({ inp with title := te.1, author := ae.1, isbn := ie.1 }, pe)

/-! ## The URL cleanup engine -/

/-- The components of Go's `url.URL` that the cleanup engine reads. -/
structure GoURL where
  scheme : GoStr
  host : GoStr
  path : GoStr
  rawQuery : GoStr
  fragment : GoStr
deriving DecidableEq

/-- ASCII letter byte. -/
def isAlphaB (b : Nat) : Bool := (65 ≤ b && b ≤ 90) || (97 ≤ b && b ≤ 122)

/-- Bytes allowed after the first character of a URL scheme. -/
def isSchemeByte (b : Nat) : Bool :=
  isAlphaB b || isDigitB b || b == 43 || b == 45 || b == 46

/-- Control bytes, which `url.Parse` rejects outright. -/
def isCtlB (b : Nat) : Bool := b < 32 || b == 127

/-- `net/url`'s `getScheme`: scan scheme bytes up to a `:`.  `none` models the
`missing protocol scheme` error (a `:` before any scheme byte); a malformed
or absent scheme yields an empty scheme with the whole input as remainder. -/
def getScheme (s : GoStr) : Option (GoStr × GoStr) :=
  match s.dropWhile isSchemeByte with
  | c :: tail =>
      if c = 58 then
        match s.takeWhile isSchemeByte with
        | [] => none
        | c0 :: pre0 =>
            if isAlphaB c0 then some ((c0 :: pre0).map toLowerB, tail) else some ([], s)
      else some ([], s)
  | [] => some ([], s)

/-- Host part of an authority: everything after the last `@` (userinfo is
split off; the engine never reads it). -/
def hostOfAuthority (auth : GoStr) : GoStr :=
  (auth.reverse.takeWhile (fun b => b != 64)).reverse

/-- Model of `url.Parse` (scope as in the header): split off the fragment at
the first `#`, extract the scheme, then an authority after `//` up to the
next `/` or `?`, then the path up to the first `?`, then the raw query.
URLs without an authority keep an empty host (the engine rejects them). -/
def parseURL (raw : GoStr) : Option GoURL :=
  if raw.any isCtlB then none
  else
    let rest0 := raw.takeWhile (fun b => b != 35)
    let frag := (raw.dropWhile (fun b => b != 35)).drop 1
    match getScheme rest0 with
    | none => none
    | some (scheme, rest) =>
        if startsWithB rest (bs "//") then
          let afterSlashes := rest.drop 2
          let auth := afterSlashes.takeWhile (fun b => b != 47 && b != 63)
          let after := afterSlashes.dropWhile (fun b => b != 47 && b != 63)
          let path := after.takeWhile (fun b => b != 63)
          let query := (after.dropWhile (fun b => b != 63)).drop 1
          some { scheme := scheme, host := hostOfAuthority auth, path := path,
                 rawQuery := query, fragment := frag }
        else
          let path := rest.takeWhile (fun b => b != 63)
          let query := (rest.dropWhile (fun b => b != 63)).drop 1
          some { scheme := scheme, host := [], path := path,
                 rawQuery := query, fragment := frag }

/-- Model of `URL.String` for the URLs the engine emits (host present, path
empty or absolute): `scheme://host path [?query] [#fragment]`. -/
def urlString (u : GoURL) : GoStr :=
  u.scheme ++ bs "://" ++ u.host ++ u.path ++
    (if u.rawQuery = [] then [] else 63 :: u.rawQuery) ++
    (if u.fragment = [] then [] else 35 :: u.fragment)

/-- Bytes `net/url` leaves unescaped in a query component: alphanumerics
and `-_.~`. -/
def isUnreservedB (b : Nat) : Bool :=
  isDigitB b || isAlphaB b || b == 45 || b == 95 || b == 46 || b == 126

/-- Upper-case hex digit of a value below 16. -/
def hexDigitB (n : Nat) : Nat := if n < 10 then 48 + n else 55 + n

/-- `url.QueryEscape` of one byte: unreserved bytes unchanged, space to `+`,
everything else `%XX`. -/
def queryEscapeByte (b : Nat) : GoStr :=
  if isUnreservedB b then [b]
  else if b == 32 then [43]
  else [37, hexDigitB (b / 16 % 16), hexDigitB (b % 16)]

/-- `url.QueryEscape`. -/
def queryEscape (s : GoStr) : GoStr := (s.map queryEscapeByte).flatten

/-- Hex digit value of a byte, if it is one. -/
def unhexB (b : Nat) : Option Nat :=
  if 48 ≤ b ∧ b ≤ 57 then some (b - 48)
  else if 65 ≤ b ∧ b ≤ 70 then some (b - 55)
  else if 97 ≤ b ∧ b ≤ 102 then some (b - 87)
  else none

/-- `url.QueryUnescape`: decode `%XX` and `+`; `none` on a malformed
escape. -/
def queryUnescape : GoStr → Option GoStr
  | [] => some []
  | 37 :: h1 :: h2 :: rest =>
      match unhexB h1, unhexB h2, queryUnescape rest with
      | some a, some b, some r => some ((16 * a + b) :: r)
      | _, _, _ => none
  | 37 :: _ => none
  | 43 :: rest => (queryUnescape rest).map (fun r => 32 :: r)
  | b :: rest => (queryUnescape rest).map (fun r => b :: r)

/-- `url.Values`: an insertion-ordered association list from decoded key to
its decoded values in order of appearance. -/
abbrev Values := List (GoStr × List GoStr)

/-- Append a value under a key, keeping the key's first position. -/
def valuesAdd (m : Values) (k v : GoStr) : Values :=
  match m with
  | [] => [(k, [v])]
  | (k0, vs) :: rest =>
      if k0 == k then (k0, vs ++ [v]) :: rest else (k0, vs) :: valuesAdd rest k v

/-- One step of `url.ParseQuery`: skip empty pieces, pieces containing `;`,
and pieces with malformed escapes; otherwise cut at the first `=`, unescape
key and value, and append. -/
def parsePiece (m : Values) (piece : GoStr) : Values :=
  if piece.contains 59 then m
  else if piece = [] then m
  else
    let k := piece.takeWhile (fun b => b != 61)
    let v := (piece.dropWhile (fun b => b != 61)).drop 1
    match queryUnescape k, queryUnescape v with
    | some k2, some v2 => valuesAdd m k2 v2
    | _, _ => m

/-- `url.ParseQuery` as used by `URL.Query` (the error is discarded and the
successfully parsed pairs kept). -/
def parseQuery (q : GoStr) : Values :=
  (q.splitOn 38).foldl parsePiece []

/-- Lexicographic byte order (Go's `string <`). -/
def strLtB : GoStr → GoStr → Bool
  | [], [] => false
  | [], _ :: _ => true
  | _ :: _, [] => false
  | a :: as, b :: bs2 => if a < b then true else if b < a then false else strLtB as bs2

/-- The corresponding `≤`. -/
def strLeB (a b : GoStr) : Bool := !(strLtB b a)

/-- `Values.Encode`: keys sorted lexicographically, every value written as
`key=value` with both sides query-escaped, pairs joined with `&`. -/
def encodeQuery (m : Values) : GoStr :=
  let sorted := List.insertionSort (fun p q : GoStr × List GoStr => strLeB p.1 q.1 = true) m
  List.intercalate [38]
    ((sorted.map (fun p => p.2.map (fun v => queryEscape p.1 ++ [61] ++ queryEscape v))).flatten)

/-- `needsWWW`: add `www.` only to bare root domains (exactly one dot, not
already `www.`-prefixed). -/
def needsWWW (host : GoStr) : Bool :=
  if startsWithB host (bs "www.") then false
  else host.count 46 == 1

/-- `applyRedirection`: lowercase the host (adding `www.` to bare domains,
the port set aside), lowercase the path and strip one trailing slash,
re-encode the query with one trailing slash stripped from each value, drop
the fragment. -/
def applyRedirection (u : GoURL) : GoStr :=
  let host0 := u.host.map toLowerB
  let host :=
    if host0.contains 58 then
      let hostOnly := host0.takeWhile (fun b => b != 58)
      let port := host0.dropWhile (fun b => b != 58)
      (if needsWWW hostOnly then bs "www." ++ hostOnly else hostOnly) ++ port
    else if needsWWW host0 then bs "www." ++ host0 else host0
  let path := trimSuffixB (u.path.map toLowerB) (bs "/")
  let q := parseQuery u.rawQuery
  let q2 := q.map (fun p => (p.1, p.2.map (fun v => trimSuffixB v (bs "/"))))
  urlString { scheme := u.scheme, host := host, path := path,
              rawQuery := encodeQuery q2, fragment := [] }

/-- The cleanup engine's failure modes. -/
inductive CleanupErr where
  | invalidURL : CleanupErr
  | invalidOperation : CleanupErr
  | unexpectedParse : CleanupErr
deriving DecidableEq

deriving instance DecidableEq for Except

/-- The message attached to each failure mode in the source. -/
def cleanupErrMsg : CleanupErr → GoStr
  | .invalidURL => bs "invalid url"
  | .invalidOperation => bs "invalid operation (use: redirection|canonical|all)"
  | .unexpectedParse => bs "unexpected parse error"

/-- `processURL`: parse (requiring a scheme and a host), then dispatch on the
already-lowercased operation name. -/
def processURL (op raw : GoStr) : Except CleanupErr GoStr :=
  match parseURL raw with
  | none => .error .invalidURL
  | some u =>
      if u.scheme = [] ∨ u.host = [] then .error .invalidURL
      else if op = bs "canonical" then
        .ok (urlString { u with rawQuery := [], fragment := [], path := trimSuffixB u.path (bs "/") })
      else if op = bs "redirection" then .ok (applyRedirection u)
      else if op = bs "all" then
        match parseURL (applyRedirection u) with
        | none => .error .unexpectedParse
        | some u2 => .ok (urlString { u2 with rawQuery := [], fragment := [] })
      else .error .invalidOperation

/-! ## General lemmas about the error accumulator -/

theorem findMsg_append_single (es : Errs) (f g m : GoStr) :
    findMsg f (es ++ [(g, m)]) =
      match findMsg f es with
      | some m0 => some m0
      | none => if (g == f) then some m else none := by
  induction es with
  | nil => cases hb : (g == f) <;> simp [findMsg, List.find?, hb]
  | cons p rest ih =>
      by_cases h : (p.1 == f) <;> simp [findMsg, List.find?, h] at ih ⊢ <;> simp [ih]

theorem findMsg_addErr_ne (es : Errs) (f g m : GoStr) (h : (g == f) = false) :
    findMsg f (addErr es g m) = findMsg f es := by
  unfold addErr
  cases hg : findMsg g es with
  | some m0 => rfl
  | none =>
      rw [findMsg_append_single]
      cases hf : findMsg f es with
      | some m0 => rfl
      | none => simp [h]

theorem findMsg_addErr_self (es : Errs) (f m : GoStr) (h : findMsg f es = none) :
    findMsg f (addErr es f m) = some m := by
  unfold addErr
  rw [h, findMsg_append_single, h]
  simp

/-! ## Rounding lemmas and claim C5 -/

theorem natRoundHalf_half (x d : Nat) (hd : 0 < d) :
    2 * (Int.natAbs ((x : Int) - (natRoundHalf x d : Int) * d)) ≤ d := by
  have h1 := Nat.div_add_mod (2 * x + d) (2 * d)
  have h2 : (2 * x + d) % (2 * d) < 2 * d := Nat.mod_lt _ (by omega)
  unfold natRoundHalf
  generalize hq : (2 * x + d) / (2 * d) = q at h1 ⊢
  generalize hr : (2 * x + d) % (2 * d) = r at h1 h2
  have h1' : (2 * (d : Int)) * q + r = 2 * x + d := by exact_mod_cast h1
  have key : 2 * ((x : Int) - q * d) = (r : Int) - d := by linear_combination -h1'
  omega

theorem mathRound_half (num : Int) (den : Nat) (hd : 0 < den) :
    2 * (Int.natAbs (num - mathRound num den * den)) ≤ den := by
  unfold mathRound
  by_cases h : 0 ≤ num
  · have hx : ((num.toNat : Int)) = num := Int.toNat_of_nonneg h
    simpa [h, hx] using natRoundHalf_half num.toNat den hd
  · have hx : (((-num).toNat : Int)) = -num := Int.toNat_of_nonneg (by omega)
    have h0 := natRoundHalf_half (-num).toNat den hd
    rw [hx] at h0
    simp only [h, if_false]
    have : num - -(natRoundHalf (-num).toNat den : Int) * den =
        -((-num) - (natRoundHalf (-num).toNat den : Int) * den) := by ring
    rw [this, Int.natAbs_neg]
    exact h0

theorem mathRound_nearest (num : Int) (den : Nat) (hd : 0 < den) (k : Int) :
    Int.natAbs (num - mathRound num den * den) ≤ Int.natAbs (num - k * den) := by
  by_cases hrk : mathRound num den = k
  · rw [hrk]
  · have h1 := mathRound_half num den hd
    by_contra hlt
    push_neg at hlt
    have hsplit : (num - k * den) - (num - mathRound num den * den) =
        (mathRound num den - k) * den := by ring
    have habs : Int.natAbs ((mathRound num den - k) * den) =
        (mathRound num den - k).natAbs * den := by
      rw [Int.natAbs_mul, Int.natAbs_ofNat]
    have hge : 1 ≤ (mathRound num den - k).natAbs := by
      rcases Int.natAbs_eq_zero.mp.mt (by omega : ¬(mathRound num den - k) = 0) with h
      omega
    have htri : Int.natAbs ((mathRound num den - k) * den) ≤
        Int.natAbs (num - k * den) + Int.natAbs (num - mathRound num den * den) := by
      rw [← hsplit]
      have := Int.natAbs_sub_le (num - k * den) (num - mathRound num den * den)
      omega
    rw [habs] at htri
    have : den ≤ (mathRound num den - k).natAbs * den := Nat.le_mul_of_pos_left _ hge
    omega

/-- Spec-side decimal check: the value scaled by 100 is within `1e-9` of some
integer (stated exactly over `num / den`). -/
def specHasMax2Decimals (num : Int) (den : Nat) : Prop :=
  ∃ k : Int, (num * 100 - k * (den : Int)).natAbs * 1000000000 < den

/-- C5: `hasMax2Decimals` is false for NaN and both infinities, and on finite
values accepts exactly when the value scaled by 100 lies within about `1e-9`
of an integer (the nearest integer realizes the bound); in particular 10.23
is accepted and 10.234 rejected. -/
theorem claim_C5_hasMax2Decimals :
    hasMax2Decimals .nan = false ∧
    (∀ b, hasMax2Decimals (.inf b) = false) ∧
    (∀ num : Int, ∀ den : Nat, 0 < den →
      (hasMax2Decimals (.finite num den) = true ↔ specHasMax2Decimals num den)) ∧
    hasMax2Decimals (.finite 1023 100) = true ∧
    hasMax2Decimals (.finite 10234 1000) = false := by
  refine ⟨rfl, fun b => rfl, ?_, by decide, by decide⟩
  intro num den hd
  constructor
  · intro h
    exact ⟨mathRound (num * 100) den, by simpa [hasMax2Decimals] using h⟩
  · rintro ⟨k, hk⟩
    have hnear := mathRound_nearest (num * 100) den hd k
    simp only [hasMax2Decimals, decide_eq_true_eq]
    calc (num * 100 - mathRound (num * 100) den * den).natAbs * 1000000000
        ≤ (num * 100 - k * den).natAbs * 1000000000 := by
          exact Nat.mul_le_mul_right _ hnear
      _ < den := hk

/-- Witness for C5's hypothesis-bearing conjunct at 10.23. -/
theorem claim_C5_witness :
    hasMax2Decimals (.finite 1023 100) = true ↔ specHasMax2Decimals 1023 100 :=
  claim_C5_hasMax2Decimals.2.2.1 1023 100 (by decide)

/-! ## Claims C10 and C6 -/

/-- A concrete create input with a valid ISBN but a missing year. -/
def cMixed : CreateBookInput :=
  { title := bs " A ", author := bs "B", isbn := bs " 0-306-40615-2 ",
    price := .finite 5 1, publicationYear := 0 }

/-- C10: normalization is not atomic on validation failure — for every create
input the returned value has title and author trimmed and, whenever the
trimmed ISBN is checksum-valid, the ISBN replaced by its normalized form
(otherwise merely trimmed); concretely, an input that fails validation is
returned changed, not raw. -/
theorem claim_C10_normalizes_despite_errors :
    (∀ inp : CreateBookInput,
      (validateAndNormalizeCreate inp).1.title = trimSpace inp.title ∧
      (validateAndNormalizeCreate inp).1.author = trimSpace inp.author ∧
      (isValidISBN (trimSpace inp.isbn) = true →
        (validateAndNormalizeCreate inp).1.isbn = normalizeISBN (trimSpace inp.isbn)) ∧
      (isValidISBN (trimSpace inp.isbn) = false →
        (validateAndNormalizeCreate inp).1.isbn = trimSpace inp.isbn)) ∧
    ((validateAndNormalizeCreate cMixed).2 ≠ [] ∧
      (validateAndNormalizeCreate cMixed).1 ≠ cMixed) := by
  constructor
  · intro inp
    refine ⟨by simp [validateAndNormalizeCreate], by simp [validateAndNormalizeCreate], ?_, ?_⟩
    · intro hvalid
      by_cases he : trimSpace inp.isbn = []
      · rw [he] at hvalid
        exact absurd hvalid (by decide)
      · simp [validateAndNormalizeCreate, he, hvalid]
    · intro hinvalid
      by_cases he : trimSpace inp.isbn = []
      · simp [validateAndNormalizeCreate, he]
      · simp [validateAndNormalizeCreate, he, hinvalid]
  · exact ⟨by decide, by decide⟩

/-- Witness for C10's implication at a concrete valid-ISBN input. -/
theorem claim_C10_witness :
    (validateAndNormalizeCreate cMixed).1.isbn = normalizeISBN (trimSpace cMixed.isbn) :=
  ((claim_C10_normalizes_despite_errors.1 cMixed).2.2.1) (by decide)

/-- The patch whose only present field is the price. -/
def priceOnlyPatch (p : GoFloat) : UpdateBookInput :=
  { title := none, author := none, isbn := none, price := some p,
    publicationYear := none }

/-- C6: a patch carrying only a price keeps the other four fields absent and
free of errors; its price stays present, and a valid price yields an empty
error set. -/
theorem claim_C6_update_price_only :
    ∀ p : GoFloat,
      (validateAndNormalizeUpdate (priceOnlyPatch p)).1.title = none ∧
      (validateAndNormalizeUpdate (priceOnlyPatch p)).1.author = none ∧
      (validateAndNormalizeUpdate (priceOnlyPatch p)).1.isbn = none ∧
      (validateAndNormalizeUpdate (priceOnlyPatch p)).1.publicationYear = none ∧
      (validateAndNormalizeUpdate (priceOnlyPatch p)).1.price = some p ∧
      findMsg (bs "title") (validateAndNormalizeUpdate (priceOnlyPatch p)).2 = none ∧
      findMsg (bs "author") (validateAndNormalizeUpdate (priceOnlyPatch p)).2 = none ∧
      findMsg (bs "isbn") (validateAndNormalizeUpdate (priceOnlyPatch p)).2 = none ∧
      findMsg (bs "publication_year") (validateAndNormalizeUpdate (priceOnlyPatch p)).2 = none ∧
      (GoFloat.flt p (.finite 0 1) = false →
        GoFloat.flt (.finite 1000000 1) p = false →
        hasMax2Decimals p = true →
        (validateAndNormalizeUpdate (priceOnlyPatch p)).2 = []) := by
  intro p
  refine ⟨rfl, rfl, rfl, rfl, rfl, ?_, ?_, ?_, ?_, ?_⟩
  · simp only [validateAndNormalizeUpdate, priceOnlyPatch, titlePatch, authorPatch, isbnPatch]
    unfold priceCheck
    split_ifs <;> decide
  · simp only [validateAndNormalizeUpdate, priceOnlyPatch, titlePatch, authorPatch, isbnPatch]
    unfold priceCheck
    split_ifs <;> decide
  · simp only [validateAndNormalizeUpdate, priceOnlyPatch, titlePatch, authorPatch, isbnPatch]
    unfold priceCheck
    split_ifs <;> decide
  · simp only [validateAndNormalizeUpdate, priceOnlyPatch, titlePatch, authorPatch, isbnPatch]
    unfold priceCheck
    split_ifs <;> decide
  · intro h1 h2 h3
    simp [validateAndNormalizeUpdate, priceOnlyPatch, titlePatch, authorPatch, isbnPatch,
      priceCheck, h1, h2, h3]

/-- Witness for C6's implication at the valid price 5. -/
theorem claim_C6_witness :
    (validateAndNormalizeUpdate (priceOnlyPatch (.finite 5 1))).2 = [] :=
  ((claim_C6_update_price_only (.finite 5 1)).2.2.2.2.2.2.2.2.2)
    (by decide) (by decide) (by decide)

/-! ## Error-set shape lemmas -/

theorem findMsg_append (es1 es2 : Errs) (f : GoStr) :
    findMsg f (es1 ++ es2) =
      match findMsg f es1 with
      | some m => some m
      | none => findMsg f es2 := by
  induction es1 with
  | nil => simp [findMsg]
  | cons p rest ih =>
      by_cases h : (p.1 == f) <;> simp [findMsg, List.find?, h] at ih ⊢ <;> simp [ih]

/-- The error entries the title block contributes. -/
def titleSeg (t : GoStr) : Errs :=
  if t = [] then [(bs "title", bs "Title is required")]
  else if 120 < t.length then [(bs "title", bs "Title must be ≤ 120 characters")]
  else []

/-- The error entries the author block contributes. -/
def authorSeg (a : GoStr) : Errs :=
  if a = [] then [(bs "author", bs "Author is required")]
  else if 80 < a.length then [(bs "author", bs "Author must be ≤ 80 characters")]
  else []

/-- The error entries the ISBN block contributes. -/
def isbnSeg (s : GoStr) : Errs :=
  if s = [] then [(bs "isbn", bs "ISBN is required")]
  else if !isValidISBN s then [(bs "isbn", bs "Invalid ISBN (must be ISBN-10 or ISBN-13)")]
  else []

/-- The error entries the create-mode year block contributes. -/
def yearSegCreate (y : Int) : Errs :=
  if y = 0 then [(bs "publication_year", bs "Publication year is required")]
  else if !isValidFourDigitYearInt y then
    [(bs "publication_year", bs "Publication year must be a 4-digit number")]
  else []

/-- The error entries the update-mode year block contributes. -/
def yearSegUpdate (y : Int) : Errs :=
  if !isValidFourDigitYearInt y then
    [(bs "publication_year", bs "Publication year must be a 4-digit number")]
  else []

/-- The error entries the price block contributes. -/
def priceSeg (p : GoFloat) : Errs :=
  if GoFloat.flt p (.finite 0 1) then [(bs "price", bs "Price must be ≥ 0")]
  else if GoFloat.flt (.finite 1000000 1) p then [(bs "price", bs "Price is too large")]
  else if !hasMax2Decimals p then [(bs "price", bs "Max 2 decimal places")]
  else []

/-- The entries an absent field contributes (none). -/
def optSeg (f : α → Errs) : Option α → Errs
  | none => []
  | some v => f v

theorem optSeg_none (f : α → Errs) : optSeg f none = [] := rfl

theorem optSeg_some (f : α → Errs) (v : α) : optSeg f (some v) = f v := rfl

theorem titleCheck_append (es : Errs) (t : GoStr) (h : findMsg (bs "title") es = none) :
    titleCheck es t = es ++ titleSeg t := by
  unfold titleCheck titleSeg
  split_ifs <;> simp [addErr, h]

theorem authorCheck_append (es : Errs) (a : GoStr) (h : findMsg (bs "author") es = none) :
    authorCheck es a = es ++ authorSeg a := by
  unfold authorCheck authorSeg
  split_ifs <;> simp [addErr, h]

theorem isbnCheck_append (es : Errs) (s : GoStr) (h : findMsg (bs "isbn") es = none) :
    isbnCheck es s = es ++ isbnSeg s := by
  unfold isbnCheck isbnSeg
  split_ifs <;> simp [addErr, h]

theorem yearCheckCreate_append (es : Errs) (y : Int)
    (h : findMsg (bs "publication_year") es = none) :
    yearCheckCreate es y = es ++ yearSegCreate y := by
  unfold yearCheckCreate yearSegCreate
  split_ifs <;> simp [addErr, h]

theorem yearCheckUpdate_append (es : Errs) (y : Int)
    (h : findMsg (bs "publication_year") es = none) :
    yearCheckUpdate es y = es ++ yearSegUpdate y := by
  unfold yearCheckUpdate yearSegUpdate
  split_ifs <;> simp [addErr, h]

theorem priceCheck_append (es : Errs) (p : GoFloat) (h : findMsg (bs "price") es = none) :
    priceCheck es p = es ++ priceSeg p := by
  unfold priceCheck priceSeg
  split_ifs <;> simp [addErr, h]

theorem findMsg_titleSeg_ne (f : GoStr) (t : GoStr) (h : (bs "title" == f) = false) :
    findMsg f (titleSeg t) = none := by
  unfold titleSeg
  split_ifs <;> simp [findMsg, List.find?, h]

theorem findMsg_authorSeg_ne (f : GoStr) (a : GoStr) (h : (bs "author" == f) = false) :
    findMsg f (authorSeg a) = none := by
  unfold authorSeg
  split_ifs <;> simp [findMsg, List.find?, h]

theorem findMsg_isbnSeg_ne (f : GoStr) (s : GoStr) (h : (bs "isbn" == f) = false) :
    findMsg f (isbnSeg s) = none := by
  unfold isbnSeg
  split_ifs <;> simp [findMsg, List.find?, h]

theorem findMsg_yearSegCreate_ne (f : GoStr) (y : Int)
    (h : (bs "publication_year" == f) = false) :
    findMsg f (yearSegCreate y) = none := by
  unfold yearSegCreate
  split_ifs <;> simp [findMsg, List.find?, h]

theorem findMsg_priceSeg_ne (f : GoStr) (p : GoFloat) (h : (bs "price" == f) = false) :
    findMsg f (priceSeg p) = none := by
  unfold priceSeg
  split_ifs <;> simp [findMsg, List.find?, h]

theorem findMsg_yearSegUpdate_ne (f : GoStr) (y : Int)
    (h : (bs "publication_year" == f) = false) :
    findMsg f (yearSegUpdate y) = none := by
  unfold yearSegUpdate
  split_ifs <;> simp [findMsg, List.find?, h]

theorem create_errs_eq (inp : CreateBookInput) :
    (validateAndNormalizeCreate inp).2 =
      titleSeg (trimSpace inp.title) ++ authorSeg (trimSpace inp.author) ++
        isbnSeg (trimSpace inp.isbn) ++ yearSegCreate inp.publicationYear ++
        priceSeg inp.price := by
  simp only [validateAndNormalizeCreate]
  rw [titleCheck_append [] (trimSpace inp.title) (by rfl), List.nil_append]
  rw [authorCheck_append _ _ (findMsg_titleSeg_ne _ _ (by decide))]
  rw [isbnCheck_append _ _ (by
    rw [findMsg_append, findMsg_titleSeg_ne _ _ (by decide),
      findMsg_authorSeg_ne _ _ (by decide)])]
  rw [yearCheckCreate_append _ _ (by
    rw [findMsg_append, findMsg_append, findMsg_titleSeg_ne _ _ (by decide),
      findMsg_authorSeg_ne _ _ (by decide), findMsg_isbnSeg_ne _ _ (by decide)])]
  rw [priceCheck_append _ _ (by
    rw [findMsg_append, findMsg_append, findMsg_append,
      findMsg_titleSeg_ne _ _ (by decide), findMsg_authorSeg_ne _ _ (by decide),
      findMsg_isbnSeg_ne _ _ (by decide), findMsg_yearSegCreate_ne _ _ (by decide)])]

theorem update_errs_eq (inp : UpdateBookInput) :
    (validateAndNormalizeUpdate inp).2 =
      optSeg (fun v => titleSeg (trimSpace v)) inp.title ++
        optSeg (fun v => authorSeg (trimSpace v)) inp.author ++
        optSeg (fun v => isbnSeg (trimSpace v)) inp.isbn ++
        optSeg yearSegUpdate inp.publicationYear ++
        optSeg priceSeg inp.price := by
  have h1 : (titlePatch [] inp.title).2 =
      optSeg (fun v => titleSeg (trimSpace v)) inp.title := by
    cases inp.title with
    | none => rfl
    | some v =>
        simp only [titlePatch, optSeg_some]
        exact titleCheck_append [] (trimSpace v) (by rfl)
  have hf1 : ∀ f : GoStr, (bs "title" == f) = false →
      findMsg f (optSeg (fun v => titleSeg (trimSpace v)) inp.title) = none := by
    intro f h
    cases inp.title with
    | none => rfl
    | some v => exact findMsg_titleSeg_ne _ _ h
  have h2 : (authorPatch (titlePatch [] inp.title).2 inp.author).2 =
      optSeg (fun v => titleSeg (trimSpace v)) inp.title ++
        optSeg (fun v => authorSeg (trimSpace v)) inp.author := by
    cases inp.author with
    | none => simp [authorPatch, optSeg_none, h1]
    | some v =>
        simp only [authorPatch, optSeg_some]
        rw [h1, authorCheck_append _ _ (hf1 _ (by decide))]
  have hf2 : ∀ f : GoStr, (bs "title" == f) = false → (bs "author" == f) = false →
      findMsg f (optSeg (fun v => titleSeg (trimSpace v)) inp.title ++
        optSeg (fun v => authorSeg (trimSpace v)) inp.author) = none := by
    intro f ht ha
    rw [findMsg_append, hf1 _ ht]
    cases inp.author with
    | none => rfl
    | some v => exact findMsg_authorSeg_ne _ _ ha
  have h3 : (isbnPatch (authorPatch (titlePatch [] inp.title).2 inp.author).2 inp.isbn).2 =
      optSeg (fun v => titleSeg (trimSpace v)) inp.title ++
        optSeg (fun v => authorSeg (trimSpace v)) inp.author ++
        optSeg (fun v => isbnSeg (trimSpace v)) inp.isbn := by
    cases inp.isbn with
    | none => simp [isbnPatch, optSeg_none, h2]
    | some v =>
        simp only [isbnPatch, optSeg_some]
        rw [h2, isbnCheck_append _ _ (hf2 _ (by decide) (by decide))]
  have hf3 : ∀ f : GoStr, (bs "title" == f) = false → (bs "author" == f) = false →
      (bs "isbn" == f) = false →
      findMsg f (optSeg (fun v => titleSeg (trimSpace v)) inp.title ++
        optSeg (fun v => authorSeg (trimSpace v)) inp.author ++
        optSeg (fun v => isbnSeg (trimSpace v)) inp.isbn) = none := by
    intro f ht ha hi
    rw [findMsg_append, hf2 _ ht ha]
    cases inp.isbn with
    | none => rfl
    | some v => exact findMsg_isbnSeg_ne _ _ hi
  have h4 :
      (match inp.publicationYear with
        | none => (isbnPatch (authorPatch (titlePatch [] inp.title).2 inp.author).2 inp.isbn).2
        | some y =>
            yearCheckUpdate
              (isbnPatch (authorPatch (titlePatch [] inp.title).2 inp.author).2 inp.isbn).2 y) =
      optSeg (fun v => titleSeg (trimSpace v)) inp.title ++
        optSeg (fun v => authorSeg (trimSpace v)) inp.author ++
        optSeg (fun v => isbnSeg (trimSpace v)) inp.isbn ++
        optSeg yearSegUpdate inp.publicationYear := by
    cases inp.publicationYear with
    | none => simp [h3, optSeg_none]
    | some y =>
        simp only [optSeg_some]
        rw [h3, yearCheckUpdate_append _ _ (hf3 _ (by decide) (by decide) (by decide))]
  have hf4 : ∀ f : GoStr, (bs "title" == f) = false → (bs "author" == f) = false →
      (bs "isbn" == f) = false → (bs "publication_year" == f) = false →
      findMsg f (optSeg (fun v => titleSeg (trimSpace v)) inp.title ++
        optSeg (fun v => authorSeg (trimSpace v)) inp.author ++
        optSeg (fun v => isbnSeg (trimSpace v)) inp.isbn ++
        optSeg yearSegUpdate inp.publicationYear) = none := by
    intro f ht ha hi hy
    rw [findMsg_append, hf3 _ ht ha hi]
    cases inp.publicationYear with
    | none => rfl
    | some y => exact findMsg_yearSegUpdate_ne _ _ hy
  show (match inp.price with
    | none =>
        (match inp.publicationYear with
          | none => (isbnPatch (authorPatch (titlePatch [] inp.title).2 inp.author).2 inp.isbn).2
          | some y =>
              yearCheckUpdate
                (isbnPatch (authorPatch (titlePatch [] inp.title).2 inp.author).2 inp.isbn).2 y)
    | some p =>
        priceCheck
          (match inp.publicationYear with
            | none =>
                (isbnPatch (authorPatch (titlePatch [] inp.title).2 inp.author).2 inp.isbn).2
            | some y =>
                yearCheckUpdate
                  (isbnPatch (authorPatch (titlePatch [] inp.title).2 inp.author).2 inp.isbn).2
                  y) p) = _
  cases inp.price with
  | none => simp [h4, optSeg_none]
  | some p =>
      simp only [optSeg_some]
      rw [h4, priceCheck_append _ _ (hf4 _ (by decide) (by decide) (by decide) (by decide))]

/-! ## Claim C2 -/

/-- C2: when all five fields are invalid, the error set has exactly five
entries, keyed by the five field names in the order checked, each carrying
the first message recorded for its field; and `ValidationError.add` never
overwrites an existing entry. -/
theorem claim_C2_all_invalid_five_errors :
    (∀ inp : CreateBookInput,
      (trimSpace inp.title = [] ∨ 120 < (trimSpace inp.title).length) →
      (trimSpace inp.author = [] ∨ 80 < (trimSpace inp.author).length) →
      (trimSpace inp.isbn = [] ∨ isValidISBN (trimSpace inp.isbn) = false) →
      (inp.publicationYear = 0 ∨ isValidFourDigitYearInt inp.publicationYear = false) →
      (GoFloat.flt inp.price (.finite 0 1) = true ∨
        GoFloat.flt (.finite 1000000 1) inp.price = true ∨
        hasMax2Decimals inp.price = false) →
      ((validateAndNormalizeCreate inp).2.map Prod.fst =
          [bs "title", bs "author", bs "isbn", bs "publication_year", bs "price"] ∧
        (validateAndNormalizeCreate inp).2.length = 5 ∧
        findMsg (bs "title") (validateAndNormalizeCreate inp).2 =
          some (if trimSpace inp.title = [] then bs "Title is required"
            else bs "Title must be ≤ 120 characters") ∧
        findMsg (bs "author") (validateAndNormalizeCreate inp).2 =
          some (if trimSpace inp.author = [] then bs "Author is required"
            else bs "Author must be ≤ 80 characters") ∧
        findMsg (bs "isbn") (validateAndNormalizeCreate inp).2 =
          some (if trimSpace inp.isbn = [] then bs "ISBN is required"
            else bs "Invalid ISBN (must be ISBN-10 or ISBN-13)") ∧
        findMsg (bs "publication_year") (validateAndNormalizeCreate inp).2 =
          some (if inp.publicationYear = 0 then bs "Publication year is required"
            else bs "Publication year must be a 4-digit number") ∧
        findMsg (bs "price") (validateAndNormalizeCreate inp).2 =
          some (if GoFloat.flt inp.price (.finite 0 1) then bs "Price must be ≥ 0"
            else if GoFloat.flt (.finite 1000000 1) inp.price then bs "Price is too large"
            else bs "Max 2 decimal places"))) ∧
    (∀ (es : Errs) (f m m' : GoStr), findMsg f es = some m → addErr es f m' = es) := by
  constructor
  · intro inp ht ha hi hy hp
    have Ht : titleSeg (trimSpace inp.title) =
        [(bs "title", if trimSpace inp.title = [] then bs "Title is required"
          else bs "Title must be ≤ 120 characters")] := by
      rcases ht with h | h
      · simp [titleSeg, h]
      · have h0 : ¬trimSpace inp.title = [] := by
          intro e
          rw [e] at h
          simp at h
        simp [titleSeg, h0, h]
    have Ha : authorSeg (trimSpace inp.author) =
        [(bs "author", if trimSpace inp.author = [] then bs "Author is required"
          else bs "Author must be ≤ 80 characters")] := by
      rcases ha with h | h
      · simp [authorSeg, h]
      · have h0 : ¬trimSpace inp.author = [] := by
          intro e
          rw [e] at h
          simp at h
        simp [authorSeg, h0, h]
    have Hi : isbnSeg (trimSpace inp.isbn) =
        [(bs "isbn", if trimSpace inp.isbn = [] then bs "ISBN is required"
          else bs "Invalid ISBN (must be ISBN-10 or ISBN-13)")] := by
      by_cases h0 : trimSpace inp.isbn = []
      · simp [isbnSeg, h0]
      · have h := hi.resolve_left h0
        simp [isbnSeg, h0, h]
    have Hy : yearSegCreate inp.publicationYear =
        [(bs "publication_year", if inp.publicationYear = 0 then
          bs "Publication year is required"
          else bs "Publication year must be a 4-digit number")] := by
      by_cases y0 : inp.publicationYear = 0
      · simp [yearSegCreate, y0]
      · have h := hy.resolve_left y0
        simp [yearSegCreate, y0, h]
    have Hp : priceSeg inp.price =
        [(bs "price", if GoFloat.flt inp.price (.finite 0 1) then bs "Price must be ≥ 0"
          else if GoFloat.flt (.finite 1000000 1) inp.price then bs "Price is too large"
          else bs "Max 2 decimal places")] := by
      by_cases p1 : GoFloat.flt inp.price (.finite 0 1) = true
      · simp [priceSeg, p1]
      · by_cases p2 : GoFloat.flt (.finite 1000000 1) inp.price = true
        · simp [priceSeg, p1, p2]
        · have p3 := (hp.resolve_left p1).resolve_left p2
          simp [priceSeg, p1, p2, p3]
    rw [create_errs_eq, Ht, Ha, Hi, Hy, Hp]
    refine ⟨by simp, by simp, ?_, ?_, ?_, ?_, ?_⟩ <;>
      simp [findMsg, List.find?,
        (by decide : (bs "title" == bs "author") = false),
        (by decide : (bs "title" == bs "isbn") = false),
        (by decide : (bs "title" == bs "publication_year") = false),
        (by decide : (bs "title" == bs "price") = false),
        (by decide : (bs "author" == bs "isbn") = false),
        (by decide : (bs "author" == bs "publication_year") = false),
        (by decide : (bs "author" == bs "price") = false),
        (by decide : (bs "isbn" == bs "publication_year") = false),
        (by decide : (bs "isbn" == bs "price") = false),
        (by decide : (bs "publication_year" == bs "price") = false)]
  · intro es f m m' h
    unfold addErr
    rw [h]

/-- A concrete input with all five fields invalid, for the C2 witness. -/
def cAllBad : CreateBookInput :=
  { title := bs "", author := bs " ", isbn := bs "abc", price := .finite (-5) 1,
    publicationYear := 0 }

/-- Witness for C2 at a concrete all-invalid input. -/
theorem claim_C2_witness :
    (validateAndNormalizeCreate cAllBad).2.map Prod.fst =
      [bs "title", bs "author", bs "isbn", bs "publication_year", bs "price"] :=
  (claim_C2_all_invalid_five_errors.1 cAllBad (by decide) (by decide) (by decide)
    (by decide) (by decide)).1

/-! ## Claim C9 -/

theorem findMsg_titleSeg_self (t : GoStr) :
    findMsg (bs "title") (titleSeg t) = none ↔ (t ≠ [] ∧ t.length ≤ 120) := by
  unfold titleSeg
  split_ifs with h1 h2 <;> simp [findMsg, List.find?, h1]
  · omega
  · omega

theorem findMsg_authorSeg_self (a : GoStr) :
    findMsg (bs "author") (authorSeg a) = none ↔ (a ≠ [] ∧ a.length ≤ 80) := by
  unfold authorSeg
  split_ifs with h1 h2 <;> simp [findMsg, List.find?, h1]
  · omega
  · omega

theorem findMsg_title_create (inp : CreateBookInput) :
    findMsg (bs "title") (validateAndNormalizeCreate inp).2 =
      findMsg (bs "title") (titleSeg (trimSpace inp.title)) := by
  have hA : ∀ a, findMsg (bs "title") (authorSeg a) = none :=
    fun a => findMsg_authorSeg_ne _ a (by decide)
  have hI : ∀ s, findMsg (bs "title") (isbnSeg s) = none :=
    fun s => findMsg_isbnSeg_ne _ s (by decide)
  have hY : ∀ y, findMsg (bs "title") (yearSegCreate y) = none :=
    fun y => findMsg_yearSegCreate_ne _ y (by decide)
  have hP : ∀ p, findMsg (bs "title") (priceSeg p) = none :=
    fun p => findMsg_priceSeg_ne _ p (by decide)
  rw [create_errs_eq]
  simp only [findMsg_append]
  cases hc : findMsg (bs "title") (titleSeg (trimSpace inp.title)) <;>
    simp [hc, hA, hI, hY, hP]

theorem findMsg_author_create (inp : CreateBookInput) :
    findMsg (bs "author") (validateAndNormalizeCreate inp).2 =
      findMsg (bs "author") (authorSeg (trimSpace inp.author)) := by
  have hI : ∀ s, findMsg (bs "author") (isbnSeg s) = none :=
    fun s => findMsg_isbnSeg_ne _ s (by decide)
  have hY : ∀ y, findMsg (bs "author") (yearSegCreate y) = none :=
    fun y => findMsg_yearSegCreate_ne _ y (by decide)
  have hP : ∀ p, findMsg (bs "author") (priceSeg p) = none :=
    fun p => findMsg_priceSeg_ne _ p (by decide)
  rw [create_errs_eq]
  simp only [findMsg_append]
  rw [findMsg_titleSeg_ne _ _ (by decide)]
  cases hc : findMsg (bs "author") (authorSeg (trimSpace inp.author)) <;>
    simp [hc, hI, hY, hP]

theorem findMsg_title_update (inp : UpdateBookInput) :
    findMsg (bs "title") (validateAndNormalizeUpdate inp).2 =
      findMsg (bs "title") (optSeg (fun v => titleSeg (trimSpace v)) inp.title) := by
  rw [update_errs_eq]
  simp only [findMsg_append]
  cases hc : findMsg (bs "title") (optSeg (fun v => titleSeg (trimSpace v)) inp.title) <;>
    simp [hc,
      show findMsg (bs "title") (optSeg (fun v => authorSeg (trimSpace v)) inp.author) =
        none from by
          cases inp.author with
          | none => rfl
          | some v => exact findMsg_authorSeg_ne _ _ (by decide),
      show findMsg (bs "title") (optSeg (fun v => isbnSeg (trimSpace v)) inp.isbn) =
        none from by
          cases inp.isbn with
          | none => rfl
          | some v => exact findMsg_isbnSeg_ne _ _ (by decide),
      show findMsg (bs "title") (optSeg yearSegUpdate inp.publicationYear) = none from by
        cases inp.publicationYear with
        | none => rfl
        | some v => exact findMsg_yearSegUpdate_ne _ _ (by decide),
      show findMsg (bs "title") (optSeg priceSeg inp.price) = none from by
        cases inp.price with
        | none => rfl
        | some v => exact findMsg_priceSeg_ne _ _ (by decide)]

theorem findMsg_author_update (inp : UpdateBookInput) :
    findMsg (bs "author") (validateAndNormalizeUpdate inp).2 =
      findMsg (bs "author") (optSeg (fun v => authorSeg (trimSpace v)) inp.author) := by
  rw [update_errs_eq]
  simp only [findMsg_append]
  rw [show findMsg (bs "author") (optSeg (fun v => titleSeg (trimSpace v)) inp.title) =
    none from by
      cases inp.title with
      | none => rfl
      | some v => exact findMsg_titleSeg_ne _ _ (by decide)]
  cases hc : findMsg (bs "author") (optSeg (fun v => authorSeg (trimSpace v)) inp.author) <;>
    simp [hc,
      show findMsg (bs "author") (optSeg (fun v => isbnSeg (trimSpace v)) inp.isbn) =
        none from by
          cases inp.isbn with
          | none => rfl
          | some v => exact findMsg_isbnSeg_ne _ _ (by decide),
      show findMsg (bs "author") (optSeg yearSegUpdate inp.publicationYear) = none from by
        cases inp.publicationYear with
        | none => rfl
        | some v => exact findMsg_yearSegUpdate_ne _ _ (by decide),
      show findMsg (bs "author") (optSeg priceSeg inp.price) = none from by
        cases inp.price with
        | none => rfl
        | some v => exact findMsg_priceSeg_ne _ _ (by decide)]

/-- C9, amended: the source limits count UTF-8 *bytes*, not characters — in
both modes a present title is accepted iff its trimmed form is non-empty and
at most 120 bytes, an author iff non-empty and at most 80 bytes; a create
input that validates cleanly carries the trimmed title and author within
those byte budgets. -/
theorem claim_C9_title_author_limits :
    (∀ inp : CreateBookInput,
      (findMsg (bs "title") (validateAndNormalizeCreate inp).2 = none ↔
        (trimSpace inp.title ≠ [] ∧ (trimSpace inp.title).length ≤ 120)) ∧
      (findMsg (bs "author") (validateAndNormalizeCreate inp).2 = none ↔
        (trimSpace inp.author ≠ [] ∧ (trimSpace inp.author).length ≤ 80))) ∧
    (∀ (inp : UpdateBookInput) (v : GoStr),
      (inp.title = some v →
        (findMsg (bs "title") (validateAndNormalizeUpdate inp).2 = none ↔
          (trimSpace v ≠ [] ∧ (trimSpace v).length ≤ 120))) ∧
      (inp.author = some v →
        (findMsg (bs "author") (validateAndNormalizeUpdate inp).2 = none ↔
          (trimSpace v ≠ [] ∧ (trimSpace v).length ≤ 80)))) ∧
    (∀ inp : CreateBookInput, (validateAndNormalizeCreate inp).2 = [] →
      ((validateAndNormalizeCreate inp).1.title = trimSpace inp.title ∧
        trimSpace inp.title ≠ [] ∧ (trimSpace inp.title).length ≤ 120 ∧
        (validateAndNormalizeCreate inp).1.author = trimSpace inp.author ∧
        trimSpace inp.author ≠ [] ∧ (trimSpace inp.author).length ≤ 80)) := by
  refine ⟨?_, ?_, ?_⟩
  · intro inp
    rw [findMsg_title_create, findMsg_author_create]
    exact ⟨findMsg_titleSeg_self _, findMsg_authorSeg_self _⟩
  · intro inp v
    constructor
    · intro hv
      rw [findMsg_title_update, hv, optSeg_some]
      exact findMsg_titleSeg_self _
    · intro hv
      rw [findMsg_author_update, hv, optSeg_some]
      exact findMsg_authorSeg_self _
  · intro inp hok
    have ht : findMsg (bs "title") (validateAndNormalizeCreate inp).2 = none := by
      rw [hok]
      rfl
    have ha : findMsg (bs "author") (validateAndNormalizeCreate inp).2 = none := by
      rw [hok]
      rfl
    rw [findMsg_title_create] at ht
    rw [findMsg_author_create] at ha
    have ht2 := (findMsg_titleSeg_self _).mp ht
    have ha2 := (findMsg_authorSeg_self _).mp ha
    exact ⟨by simp [validateAndNormalizeCreate], ht2.1, ht2.2,
      by simp [validateAndNormalizeCreate], ha2.1, ha2.2⟩

/-- A 61-character, 122-byte title (61 copies of the two-byte character
`é`). -/
def accentTitle : GoStr := (List.replicate 61 (bs "é")).flatten

set_option maxRecDepth 4000 in
/-- C9 counterexample: this trimmed title is non-empty and only 61 characters
long (well within 120 characters), yet create validation records the length
error for it, because the source's `len` counts its 122 UTF-8 bytes. -/
theorem claim_C9_counterexample :
    trimSpace accentTitle ≠ [] ∧
    utf8CharCount (trimSpace accentTitle) ≤ 120 ∧
    findMsg (bs "title")
      (validateAndNormalizeCreate
        { title := accentTitle, author := bs "B", isbn := bs "0306406152",
          price := .finite 5 1, publicationYear := 2000 }).2 =
      some (bs "Title must be ≤ 120 characters") := by
  refine ⟨by decide, by decide, ?_⟩
  rw [findMsg_title_create]
  decide

/-- Witness for C9's hypothesis-bearing conjuncts at concrete inputs. -/
theorem claim_C9_witness :
    (findMsg (bs "title")
        (validateAndNormalizeUpdate
          { title := some (bs " A "), author := none, isbn := none, price := none,
            publicationYear := none }).2 = none ↔
      (trimSpace (bs " A ") ≠ [] ∧ (trimSpace (bs " A ")).length ≤ 120)) :=
  ((claim_C9_title_author_limits.2.1
    { title := some (bs " A "), author := none, isbn := none, price := none,
      publicationYear := none } (bs " A ")).1) rfl

/-! ## ISBN loop/spec equivalence (claim C3) -/

theorem isbn10Sum_eq (l : GoStr) (w : Nat) :
    isbn10Sum w l = (Finset.range l.length).sum (fun i => (w - i) * (l.getD i 0 - 48)) := by
  induction l generalizing w with
  | nil => simp [isbn10Sum]
  | cons b rest ih =>
      rw [isbn10Sum, ih (w - 1), List.length_cons, Finset.sum_range_succ']
      simp only [List.getD_cons_succ, List.getD_cons_zero, Nat.sub_zero]
      have : ∀ i : Nat, w - 1 - i = w - (i + 1) := by omega
      simp only [this]
      ring

theorem isbn13Sum_eq (l : GoStr) (k : Nat) :
    isbn13Sum k l =
      (Finset.range l.length).sum
        (fun i => (if (k + i) % 2 == 0 then l.getD i 0 - 48 else (l.getD i 0 - 48) * 3)) := by
  induction l generalizing k with
  | nil => simp [isbn13Sum]
  | cons b rest ih =>
      rw [isbn13Sum, ih (k + 1), List.length_cons, Finset.sum_range_succ']
      simp only [List.getD_cons_succ, List.getD_cons_zero, Nat.add_zero]
      have : ∀ i : Nat, k + 1 + i = k + (i + 1) := by omega
      simp only [this]
      ring

theorem all_take_iff (l : GoStr) (k : Nat) (p : Nat → Bool) :
    ((l.take k).all p = true) ↔ (∀ i, i < k → i < l.length → p (l.getD i 0) = true) := by
  induction l generalizing k with
  | nil => simp
  | cons b rest ih =>
      cases k with
      | zero => simp
      | succ k0 =>
          simp only [List.take_succ_cons, List.all_cons, Bool.and_eq_true, ih k0,
            List.length_cons]
          constructor
          · rintro ⟨hb, hrest⟩ i hik hil
            cases i with
            | zero => simpa using hb
            | succ j =>
                simp only [List.getD_cons_succ]
                exact hrest j (by omega) (by omega)
          · intro h
            refine ⟨by simpa using h 0 (by omega) (by omega), ?_⟩
            intro j hjk hjl
            have := h (j + 1) (by omega) (by omega)
            simpa using this

theorem getD_take (l : GoStr) (k i : Nat) (h : i < k) :
    (l.take k).getD i 0 = l.getD i 0 := by
  induction l generalizing k i with
  | nil => simp
  | cons b rest ih =>
      cases k with
      | zero => omega
      | succ k0 =>
          cases i with
          | zero => simp
          | succ j => simpa using ih k0 j (by omega)

theorem reIsbn10Match_iff (n : GoStr) :
    reIsbn10Match n = true ↔
      (n.length = 10 ∧ (∀ i < 9, isDigitB (n.getD i 0) = true) ∧
        (isDigitB (n.getD 9 0) = true ∨ n.getD 9 0 = 88)) := by
  unfold reIsbn10Match
  rw [Bool.and_eq_true, Bool.and_eq_true, Bool.or_eq_true, beq_iff_eq, beq_iff_eq]
  constructor
  · rintro ⟨⟨hlen, hall⟩, hlast⟩
    exact ⟨hlen, fun i hi => (all_take_iff n 9 isDigitB).mp hall i hi (by omega), hlast⟩
  · rintro ⟨hlen, hdig, hlast⟩
    refine ⟨⟨hlen, (all_take_iff n 9 isDigitB).mpr (fun i hi _ => hdig i hi)⟩, hlast⟩

theorem allDigits_iff (n : GoStr) :
    (n.all isDigitB = true) ↔ (∀ i, i < n.length → isDigitB (n.getD i 0) = true) := by
  have h := all_take_iff n n.length isDigitB
  rw [List.take_length] at h
  rw [h]
  constructor
  · intro hh i hi
    exact hh i hi hi
  · intro hh i hi _
    exact hh i hi

theorem reIsbn13Match_iff (n : GoStr) :
    reIsbn13Match n = true ↔
      (n.length = 13 ∧ (∀ i < 13, isDigitB (n.getD i 0) = true)) := by
  unfold reIsbn13Match
  rw [Bool.and_eq_true, beq_iff_eq, allDigits_iff]
  constructor
  · rintro ⟨hlen, hall⟩
    exact ⟨hlen, fun i hi => hall i (by omega)⟩
  · rintro ⟨hlen, hall⟩
    exact ⟨hlen, fun i hi => hall i (by omega)⟩

theorem isValidISBN10_iff (n : GoStr) : isValidISBN10 n = true ↔ specValidISBN10 n := by
  by_cases hre : reIsbn10Match n = true
  · obtain ⟨hlen, hdig, hlast⟩ := (reIsbn10Match_iff n).mp hre
    have htake : (n.take 9).length = 9 := by
      rw [List.length_take]
      omega
    have hs : isbn10Sum 10 (n.take 9) = specIsbn10Sum n := by
      rw [isbn10Sum_eq, htake]
      unfold specIsbn10Sum isbnDigit
      refine Finset.sum_congr rfl (fun i hi => ?_)
      rw [Finset.mem_range] at hi
      rw [getD_take _ _ _ hi]
    have hstep : isValidISBN10 n =
        ((if n.getD 9 0 == 88 then specIsbn10Sum n + 10
          else specIsbn10Sum n + (n.getD 9 0 - 48)) % 11 == 0) := by
      simp only [isValidISBN10, hre, Bool.not_true, Bool.false_eq_true, if_false, hs]
    rw [hstep]
    unfold specValidISBN10 isbnDigit
    rw [beq_iff_eq]
    constructor
    · intro h
      refine ⟨hlen, hdig, hlast, ?_⟩
      by_cases h88 : n.getD 9 0 = 88
      · rw [if_pos h88]
        rw [if_pos (beq_iff_eq.mpr h88)] at h
        exact Nat.dvd_of_mod_eq_zero h
      · rw [if_neg h88]
        rw [if_neg (fun hc => h88 (beq_iff_eq.mp hc))] at h
        exact Nat.dvd_of_mod_eq_zero h
    · rintro ⟨-, -, -, hdvd⟩
      by_cases h88 : n.getD 9 0 = 88
      · rw [if_pos (beq_iff_eq.mpr h88)]
        rw [if_pos h88] at hdvd
        omega
      · rw [if_neg (fun hc => h88 (beq_iff_eq.mp hc))]
        rw [if_neg h88] at hdvd
        omega
  · have hfalse : isValidISBN10 n = false := by
      simp [isValidISBN10, hre]
    rw [hfalse]
    simp only [Bool.false_eq_true, false_iff]
    rintro ⟨hlen, hdig, hlast, -⟩
    exact hre ((reIsbn10Match_iff n).mpr ⟨hlen, hdig, hlast⟩)

theorem isValidISBN13_iff (n : GoStr) : isValidISBN13 n = true ↔ specValidISBN13 n := by
  by_cases hre : reIsbn13Match n = true
  · obtain ⟨hlen, hdig⟩ := (reIsbn13Match_iff n).mp hre
    have htake : (n.take 12).length = 12 := by
      rw [List.length_take]
      omega
    have hs : isbn13Sum 0 (n.take 12) = specIsbn13Sum n := by
      rw [isbn13Sum_eq, htake]
      unfold specIsbn13Sum isbnDigit
      refine Finset.sum_congr rfl (fun i hi => ?_)
      rw [Finset.mem_range] at hi
      rw [getD_take _ _ _ hi]
      by_cases hpar : i % 2 = 0
      · rw [if_pos (beq_iff_eq.mpr (by omega : (0 + i) % 2 = 0)), if_pos hpar]
        omega
      · rw [if_neg (fun hc => hpar (by have := beq_iff_eq.mp hc; omega)), if_neg hpar]
        ring
    have hstep : isValidISBN13 n =
        ((10 - specIsbn13Sum n % 10) % 10 == n.getD 12 0 - 48) := by
      simp only [isValidISBN13, hre, Bool.not_true, Bool.false_eq_true, if_false, hs]
    rw [hstep]
    unfold specValidISBN13 isbnDigit
    rw [beq_iff_eq]
    constructor
    · intro h
      exact ⟨hlen, hdig, h⟩
    · rintro ⟨-, -, h⟩
      exact h
  · have hfalse : isValidISBN13 n = false := by
      simp [isValidISBN13, hre]
    rw [hfalse]
    simp only [Bool.false_eq_true, false_iff]
    rintro ⟨hlen, hdig, -⟩
    exact hre ((reIsbn13Match_iff n).mpr ⟨hlen, hdig⟩)

/-- C3: `isValidISBN` accepts exactly the strings whose normalized form
(spaces and hyphens removed, upper-cased) satisfies the specification's
ISBN-10 weighted-sum rule or the specification's ISBN-13 check-digit rule. -/
theorem claim_C3_isValidISBN_spec :
    ∀ s : GoStr, isValidISBN s = true ↔ specValidISBN (normalizeISBN s) := by
  intro s
  unfold isValidISBN specValidISBN
  by_cases h10 : (normalizeISBN s).length = 10
  · simp only [h10, beq_self_eq_true, if_true, isValidISBN10_iff]
    constructor
    · exact Or.inl
    · rintro (h | h)
      · exact h
      · exact absurd h.1 (by omega)
  · by_cases h13 : (normalizeISBN s).length = 13
    · simp only [h13, (by decide : ((13 : Nat) == 10) = false), Bool.false_eq_true,
        if_false, beq_self_eq_true, if_true, isValidISBN13_iff]
      constructor
      · exact Or.inr
      · rintro (h | h)
        · exact absurd h.1 (by omega)
        · exact h
    · have hb10 : ((normalizeISBN s).length == 10) = false := by
        simp [h10]
      have hb13 : ((normalizeISBN s).length == 13) = false := by
        simp [h13]
      simp only [hb10, hb13, Bool.false_eq_true, if_false, false_iff]
      rintro (h | h)
      · exact absurd h.1 h10
      · exact absurd h.1 h13

/-! ## Claim C7: the checksums detect every single-digit error -/

theorem getD_set_self (l : GoStr) (i b : Nat) (h : i < l.length) :
    (l.set i b).getD i 0 = b := by
  induction l generalizing i with
  | nil => simp at h
  | cons c rest ih =>
      cases i with
      | zero => rfl
      | succ j => simpa using ih j (by simpa using h)

theorem getD_set_ne (l : GoStr) (i j b : Nat) (h : j ≠ i) :
    (l.set i b).getD j 0 = l.getD j 0 := by
  induction l generalizing i j with
  | nil => simp
  | cons c rest ih =>
      cases i with
      | zero =>
          cases j with
          | zero => omega
          | succ j0 => simp
      | succ i0 =>
          cases j with
          | zero => rfl
          | succ j0 => simpa using ih i0 j0 (by omega)

theorem isDigitB_bounds (x : Nat) (h : isDigitB x = true) : 48 ≤ x ∧ x ≤ 57 := by
  simpa [isDigitB, Bool.and_eq_true] using h

theorem weighted_sum_set (s : GoStr) (wf : Nat → Nat) (n i b : Nat) (hi : i < n)
    (hlen : n ≤ s.length) :
    (Finset.range n).sum (fun j => wf j * isbnDigit (s.set i b) j) + wf i * isbnDigit s i =
      (Finset.range n).sum (fun j => wf j * isbnDigit s j) + wf i * (b - 48) := by
  have hmem : i ∈ Finset.range n := Finset.mem_range.mpr hi
  rw [← Finset.add_sum_erase _ _ hmem, ← Finset.add_sum_erase _ _ hmem]
  have hE : ((Finset.range n).erase i).sum (fun j => wf j * isbnDigit (s.set i b) j) =
      ((Finset.range n).erase i).sum (fun j => wf j * isbnDigit s j) := by
    refine Finset.sum_congr rfl (fun j hj => ?_)
    unfold isbnDigit
    rw [getD_set_ne _ _ _ _ (Finset.ne_of_mem_erase hj)]
  rw [hE]
  unfold isbnDigit
  rw [getD_set_self _ _ _ (by omega)]
  ring

theorem checksum_cancel11 (T T' w od nd : Nat) (h1 : 11 ∣ T) (h2 : 11 ∣ T')
    (he : T' + w * od = T + w * nd) (hw1 : 1 ≤ w) (hw2 : w ≤ 10)
    (ho : od < 11) (hn : nd < 11) : od = nd := by
  interval_cases w <;> omega

theorem checksum_cancel10 (T T' w od nd : Nat) (h1 : T % 10 = T' % 10)
    (he : T' + w * od = T + w * nd) (hw : w = 1 ∨ w = 3)
    (ho : od < 10) (hn : nd < 10) : od = nd := by
  rcases hw with h | h <;> subst h <;> omega

theorem isbn10_mutation (s : GoStr) (i b : Nat) (hv : isValidISBN10 s = true) (hi : i < 10)
    (hdi : isDigitB (s.getD i 0) = true) (hdb : isDigitB b = true)
    (hne : b ≠ s.getD i 0) :
    isValidISBN10 (s.set i b) = false := by
  obtain ⟨hlen, hdig, hlast, hdvd⟩ := (isValidISBN10_iff s).mp hv
  by_contra hcon
  rw [Bool.not_eq_false] at hcon
  obtain ⟨hlen', hdig', hlast', hdvd'⟩ := (isValidISBN10_iff _).mp hcon
  obtain ⟨hb1, hb2⟩ := isDigitB_bounds _ hdb
  obtain ⟨ho1, ho2⟩ := isDigitB_bounds _ hdi
  unfold isbnDigit at hdvd hdvd'
  by_cases hi9 : i < 9
  · have hshift : specIsbn10Sum (s.set i b) + (10 - i) * (s.getD i 0 - 48) =
        specIsbn10Sum s + (10 - i) * (b - 48) :=
      weighted_sum_set s (fun j => 10 - j) 9 i b hi9 (by omega)
    have hlast_eq : (s.set i b).getD 9 0 = s.getD 9 0 := getD_set_ne _ _ _ _ (by omega)
    rw [hlast_eq] at hdvd'
    have hod := checksum_cancel11
      (specIsbn10Sum s + (if s.getD 9 0 = 88 then 10 else s.getD 9 0 - 48))
      (specIsbn10Sum (s.set i b) + (if s.getD 9 0 = 88 then 10 else s.getD 9 0 - 48))
      (10 - i) (s.getD i 0 - 48) (b - 48) hdvd hdvd'
      (by omega) (by omega) (by omega) (by omega) (by omega)
    omega
  · have hi9' : i = 9 := by omega
    subst hi9'
    have hold88 : s.getD 9 0 ≠ 88 := by
      intro e
      rw [e] at hdi
      exact absurd hdi (by decide)
    have hnew : (s.set 9 b).getD 9 0 = b := getD_set_self _ _ _ (by omega)
    have hb88 : b ≠ 88 := by omega
    have hspec_eq : specIsbn10Sum (s.set 9 b) = specIsbn10Sum s := by
      unfold specIsbn10Sum
      refine Finset.sum_congr rfl (fun j hj => ?_)
      rw [Finset.mem_range] at hj
      unfold isbnDigit
      rw [getD_set_ne _ _ _ _ (by omega)]
    rw [if_neg hold88] at hdvd
    rw [hnew, hspec_eq, if_neg hb88] at hdvd'
    omega

theorem checkDigit_inj (x y : Nat) (hx : x < 10) (hy : y < 10)
    (h : (10 - x) % 10 = (10 - y) % 10) : x = y := by
  omega

theorem isbn13_mutation (s : GoStr) (i b : Nat) (hv : isValidISBN13 s = true) (hi : i < 13)
    (hdb : isDigitB b = true) (hne : b ≠ s.getD i 0) :
    isValidISBN13 (s.set i b) = false := by
  obtain ⟨hlen, hdig, hcheck⟩ := (isValidISBN13_iff s).mp hv
  by_contra hcon
  rw [Bool.not_eq_false] at hcon
  obtain ⟨hlen', hdig', hcheck'⟩ := (isValidISBN13_iff _).mp hcon
  obtain ⟨hb1, hb2⟩ := isDigitB_bounds _ hdb
  obtain ⟨ho1, ho2⟩ := isDigitB_bounds _ (hdig i hi)
  unfold isbnDigit at hcheck hcheck'
  by_cases hi12 : i < 12
  · have hshift : specIsbn13Sum (s.set i b) +
        (if i % 2 = 0 then 1 else 3) * (s.getD i 0 - 48) =
        specIsbn13Sum s + (if i % 2 = 0 then 1 else 3) * (b - 48) :=
      weighted_sum_set s (fun j => if j % 2 = 0 then 1 else 3) 12 i b hi12 (by omega)
    have hd12 : (s.set i b).getD 12 0 = s.getD 12 0 := getD_set_ne _ _ _ _ (by omega)
    rw [hd12] at hcheck'
    have hTmod : specIsbn13Sum s % 10 = specIsbn13Sum (s.set i b) % 10 :=
      checkDigit_inj _ _ (by omega) (by omega) (hcheck.trans hcheck'.symm)
    have hod := checksum_cancel10 (specIsbn13Sum s) (specIsbn13Sum (s.set i b))
      (if i % 2 = 0 then 1 else 3) (s.getD i 0 - 48) (b - 48) hTmod
      (by omega)
      (by
        by_cases hp : i % 2 = 0
        · exact Or.inl (if_pos hp)
        · exact Or.inr (if_neg hp))
      (by omega) (by omega)
    omega
  · have hi12' : i = 12 := by omega
    subst hi12'
    have hnew : (s.set 12 b).getD 12 0 = b := getD_set_self _ _ _ (by omega)
    have hspec_eq : specIsbn13Sum (s.set 12 b) = specIsbn13Sum s := by
      unfold specIsbn13Sum
      refine Finset.sum_congr rfl (fun j hj => ?_)
      rw [Finset.mem_range] at hj
      unfold isbnDigit
      rw [getD_set_ne _ _ _ _ (by omega)]
    rw [hnew, hspec_eq] at hcheck'
    omega

/-- C7: the two sample ISBNs validate, and for every valid ISBN-10 or
ISBN-13 candidate, replacing any single digit by a different digit makes the
corresponding checksum reject (the checksum detects all single-digit
transcription errors). -/
theorem claim_C7_checksum_error_detection :
    isValidISBN (bs "0306406152") = true ∧
    isValidISBN (bs "9780306406157") = true ∧
    (∀ (s : GoStr) (i b : Nat), isValidISBN10 s = true → i < 10 →
      isDigitB (s.getD i 0) = true → isDigitB b = true → b ≠ s.getD i 0 →
      isValidISBN10 (s.set i b) = false) ∧
    (∀ (s : GoStr) (i b : Nat), isValidISBN13 s = true → i < 13 →
      isDigitB b = true → b ≠ s.getD i 0 →
      isValidISBN13 (s.set i b) = false) :=
  ⟨by decide, by decide, isbn10_mutation, isbn13_mutation⟩

/-- Witness for C7 at concrete mutations of the sample ISBNs. -/
theorem claim_C7_witness :
    isValidISBN10 ((bs "0306406152").set 0 49) = false ∧
    isValidISBN13 ((bs "9780306406157").set 12 56) = false :=
  ⟨claim_C7_checksum_error_detection.2.2.1 (bs "0306406152") 0 49 (by decide) (by decide)
      (by decide) (by decide) (by decide),
    claim_C7_checksum_error_detection.2.2.2 (bs "9780306406157") 12 56 (by decide)
      (by decide) (by decide) (by decide)⟩

/-! ## URL engine: parse invariants -/

theorem toLowerB_cases (b : Nat) :
    toLowerB b = b ∨ (65 ≤ b ∧ b ≤ 90 ∧ toLowerB b = b + 32) := by
  unfold toLowerB
  split_ifs <;> omega

theorem isAlphaB_toLowerB (b : Nat) (h : isAlphaB b = true) : isAlphaB (toLowerB b) = true := by
  simp only [isAlphaB, Bool.or_eq_true, Bool.and_eq_true, decide_eq_true_eq] at h ⊢
  rcases toLowerB_cases b with hc | hc <;> omega

theorem isSchemeByte_toLowerB (b : Nat) (h : isSchemeByte b = true) :
    isSchemeByte (toLowerB b) = true ∧ toLowerB (toLowerB b) = toLowerB b := by
  simp only [isSchemeByte, isAlphaB, isDigitB, Bool.or_eq_true, Bool.and_eq_true,
    decide_eq_true_eq, beq_iff_eq] at h ⊢
  rcases toLowerB_cases b with hc | hc
  · rw [hc]
    exact ⟨by omega, hc⟩
  · obtain ⟨h1, h2, h3⟩ := hc
    rw [h3]
    have h4 : toLowerB (b + 32) = b + 32 := by
      unfold toLowerB
      split_ifs <;> omega
    rw [h4]
    omega

theorem takeWhile_append_of_all (p : Nat → Bool) (l1 l2 : GoStr)
    (h : ∀ x ∈ l1, p x = true) :
    (l1 ++ l2).takeWhile p = l1 ++ l2.takeWhile p := by
  induction l1 with
  | nil => simp
  | cons a t ih =>
      simp [List.takeWhile_cons, h a (List.mem_cons_self a t),
        ih (fun x hx => h x (List.mem_cons_of_mem a hx))]

theorem dropWhile_append_of_all (p : Nat → Bool) (l1 l2 : GoStr)
    (h : ∀ x ∈ l1, p x = true) :
    (l1 ++ l2).dropWhile p = l2.dropWhile p := by
  induction l1 with
  | nil => simp
  | cons a t ih =>
      simp only [List.cons_append, List.dropWhile_cons, h a (List.mem_cons_self a t),
        if_true]
      exact ih (fun x hx => h x (List.mem_cons_of_mem a hx))

theorem takeWhile_all_eq (p : Nat → Bool) (l : GoStr) (h : ∀ x ∈ l, p x = true) :
    l.takeWhile p = l := by
  have := takeWhile_append_of_all p l [] h
  simpa using this

theorem dropWhile_all_eq (p : Nat → Bool) (l : GoStr) (h : ∀ x ∈ l, p x = true) :
    l.dropWhile p = [] := by
  have := dropWhile_append_of_all p l [] h
  simpa using this

theorem map_self_of (f : Nat → Nat) (l : GoStr) (h : ∀ b ∈ l, f b = b) : l.map f = l := by
  induction l with
  | nil => rfl
  | cons a t ih =>
      simp only [List.map_cons, h a (by simp)]
      rw [ih (fun b hb => h b (by simp [hb]))]

theorem dropWhile_head_false (p : Nat → Bool) (l : GoStr) :
    l.dropWhile p = [] ∨ ∃ c t, l.dropWhile p = c :: t ∧ p c = false := by
  induction l with
  | nil => simp
  | cons a t ih =>
      by_cases h : p a = true
      · simpa [List.dropWhile_cons, h] using ih
      · rw [Bool.not_eq_true] at h
        exact Or.inr ⟨a, t, by simp [List.dropWhile_cons, h], h⟩

theorem endsWithB_iff (s suf : GoStr) : endsWithB s suf = true ↔ ∃ q, s = q ++ suf := by
  unfold endsWithB
  rw [Bool.and_eq_true, decide_eq_true_eq, beq_iff_eq]
  constructor
  · rintro ⟨hle, hdrop⟩
    refine ⟨s.take (s.length - suf.length), ?_⟩
    have htd := List.take_append_drop (s.length - suf.length) s
    rw [hdrop] at htd
    exact htd.symm
  · rintro ⟨q, rfl⟩
    have hlen : (q ++ suf).length - suf.length = q.length := by
      rw [List.length_append]
      omega
    rw [hlen, List.drop_left]
    refine ⟨by rw [List.length_append]; omega, rfl⟩

theorem trimSuffixB_append (q suf : GoStr) : trimSuffixB (q ++ suf) suf = q := by
  unfold trimSuffixB
  rw [if_pos ((endsWithB_iff _ _).mpr ⟨q, rfl⟩)]
  have hlen : (q ++ suf).length - suf.length = q.length := by
    rw [List.length_append]
    omega
  rw [hlen, List.take_left]

theorem trimSuffixB_of_no_suffix (s suf : GoStr) (h : endsWithB s suf = false) :
    trimSuffixB s suf = s := by
  unfold trimSuffixB
  rw [h]
  simp

theorem getScheme_inv (s scheme rest : GoStr) (h : getScheme s = some (scheme, rest)) :
    (scheme = [] ∨
      (scheme ≠ [] ∧ isAlphaB (scheme.headD 0) = true ∧
        ∀ b ∈ scheme, isSchemeByte b = true ∧ toLowerB b = b)) ∧
    (∀ b ∈ rest, b ∈ s) := by
  unfold getScheme at h
  split at h
  · rename_i c tail heq
    split_ifs at h with hc
    · split at h
      · simp at h
      · rename_i c0 pre0 htw
        split_ifs at h with ha
        · simp only [Option.some.injEq, Prod.mk.injEq] at h
          obtain ⟨h1, h2⟩ := h
          constructor
          · refine Or.inr ⟨?_, ?_, ?_⟩
            · rw [← h1]
              simp
            · rw [← h1]
              simp only [List.map_cons, List.headD_cons]
              exact isAlphaB_toLowerB c0 ha
            · intro b hb
              rw [← h1, List.mem_map] at hb
              obtain ⟨a, ha0, rfl⟩ := hb
              have hmem : a ∈ s.takeWhile isSchemeByte := by
                rw [htw]
                exact ha0
              exact isSchemeByte_toLowerB a (List.mem_takeWhile_imp hmem)
          · intro b hb
            rw [← h2] at hb
            have hmem : b ∈ (c :: tail) := List.mem_cons_of_mem c hb
            rw [← heq] at hmem
            exact (List.dropWhile_sublist _).mem hmem
        · simp only [Option.some.injEq, Prod.mk.injEq] at h
          obtain ⟨h1, h2⟩ := h
          exact ⟨Or.inl h1.symm, fun b hb => by rw [← h2] at hb; exact hb⟩
    · simp only [Option.some.injEq, Prod.mk.injEq] at h
      obtain ⟨h1, h2⟩ := h
      exact ⟨Or.inl h1.symm, fun b hb => by rw [← h2] at hb; exact hb⟩
  · rename_i heq
    simp only [Option.some.injEq, Prod.mk.injEq] at h
    obtain ⟨h1, h2⟩ := h
    exact ⟨Or.inl h1.symm, fun b hb => by rw [← h2] at hb; exact hb⟩

theorem mem_hostOfAuthority (a : GoStr) (b : Nat) (hb : b ∈ hostOfAuthority a) :
    b ∈ a ∧ b ≠ 64 := by
  unfold hostOfAuthority at hb
  rw [List.mem_reverse] at hb
  have h1 := List.mem_takeWhile_imp hb
  rw [bne_iff_ne] at h1
  have h2 : b ∈ a.reverse := (List.takeWhile_sublist _).mem hb
  rw [List.mem_reverse] at h2
  exact ⟨h2, h1⟩

theorem parseURL_inv (raw : GoStr) (u : GoURL) (h : parseURL raw = some u) :
    (u.scheme = [] ∨
      (u.scheme ≠ [] ∧ isAlphaB (u.scheme.headD 0) = true ∧
        ∀ b ∈ u.scheme, isSchemeByte b = true ∧ toLowerB b = b)) ∧
    (∀ b ∈ u.host, b ≠ 47 ∧ b ≠ 63 ∧ b ≠ 35 ∧ b ≠ 64 ∧ isCtlB b = false) ∧
    (∀ b ∈ u.path, b ≠ 63 ∧ b ≠ 35 ∧ isCtlB b = false) ∧
    (u.host = [] ∨ u.path = [] ∨ u.path.headD 0 = 47) ∧
    (∀ b ∈ u.rawQuery, b ≠ 35 ∧ isCtlB b = false) := by
  simp only [parseURL] at h
  split_ifs at h with hctl
  have hnoctl : ∀ b ∈ raw, isCtlB b = false := by
    intro b hb
    by_contra hbc
    rw [Bool.not_eq_false] at hbc
    exact hctl (List.any_eq_true.mpr ⟨b, hb, hbc⟩)
  have hmem0 : ∀ b ∈ raw.takeWhile (fun x => x != 35), b ≠ 35 ∧ isCtlB b = false := by
    intro b hb
    have h1 := List.mem_takeWhile_imp hb
    rw [bne_iff_ne] at h1
    exact ⟨h1, hnoctl b ((List.takeWhile_sublist _).mem hb)⟩
  split at h
  · exact absurd h (by simp)
  rename_i scheme rest hgs
  obtain ⟨hsch, hrest⟩ := getScheme_inv _ _ _ hgs
  have hrest' : ∀ b ∈ rest, b ≠ 35 ∧ isCtlB b = false := fun b hb => hmem0 b (hrest b hb)
  have hafter : ∀ b ∈ rest.drop 2, b ≠ 35 ∧ isCtlB b = false :=
    fun b hb => hrest' b (List.mem_of_mem_drop hb)
  split_ifs at h with hstart
  · simp only [Option.some.injEq] at h
    subst h
    refine ⟨hsch, ?_, ?_, ?_, ?_⟩
    · intro b hb
      obtain ⟨hin, h64⟩ := mem_hostOfAuthority _ _ hb
      have hpred := List.mem_takeWhile_imp hin
      rw [Bool.and_eq_true, bne_iff_ne, bne_iff_ne] at hpred
      have hinr := hafter b ((List.takeWhile_sublist _).mem hin)
      exact ⟨hpred.1, hpred.2, hinr.1, h64, hinr.2⟩
    · intro b hb
      have hpred := List.mem_takeWhile_imp hb
      rw [bne_iff_ne] at hpred
      have hin : b ∈ (rest.drop 2).dropWhile (fun x => x != 47 && x != 63) :=
        (List.takeWhile_sublist _).mem hb
      have hinr := hafter b ((List.dropWhile_sublist _).mem hin)
      exact ⟨hpred, hinr.1, hinr.2⟩
    · rcases dropWhile_head_false (fun x => x != 47 && x != 63) (rest.drop 2) with hdw | hdw
      · rw [hdw]
        simp
      · obtain ⟨c, t, hdw, hcp⟩ := hdw
        rw [Bool.and_eq_false_iff] at hcp
        rw [hdw]
        by_cases hc47 : c = 47
        · subst hc47
          right
          right
          simp [List.takeWhile_cons]
        · have hc63 : c = 63 := by
            rcases hcp with hcp | hcp <;> rw [bne_eq_false_iff_eq] at hcp <;> omega
          subst hc63
          right
          left
          simp [List.takeWhile_cons]
    · intro b hb
      have hb2 : b ∈ ((rest.drop 2).dropWhile (fun x => x != 47 && x != 63)).dropWhile
          (fun x => x != 63) := List.mem_of_mem_drop hb
      have hin : b ∈ (rest.drop 2).dropWhile (fun x => x != 47 && x != 63) :=
        (List.dropWhile_sublist _).mem hb2
      exact hafter b ((List.dropWhile_sublist _).mem hin)
  · simp only [Option.some.injEq] at h
    subst h
    refine ⟨hsch, by simp, ?_, Or.inl rfl, ?_⟩
    · intro b hb
      have hpred := List.mem_takeWhile_imp hb
      rw [bne_iff_ne] at hpred
      have hinr := hrest' b ((List.takeWhile_sublist _).mem hb)
      exact ⟨hpred, hinr.1, hinr.2⟩
    · intro b hb
      have hin : b ∈ rest.dropWhile (fun x => x != 63) := List.mem_of_mem_drop hb
      exact hrest' b ((List.dropWhile_sublist _).mem hin)

/-! ## Round trip: parsing a rendered URL recovers its components -/

theorem isSchemeByte_facts (b : Nat) (h : isSchemeByte b = true) :
    b ≠ 35 ∧ b ≠ 58 ∧ isCtlB b = false := by
  have hb : ((((65 ≤ b ∧ b ≤ 90 ∨ 97 ≤ b ∧ b ≤ 122) ∨ 48 ≤ b ∧ b ≤ 57) ∨ b = 43) ∨
      b = 45) ∨ b = 46 := by
    simpa only [isSchemeByte, isAlphaB, isDigitB, Bool.or_eq_true, Bool.and_eq_true,
      decide_eq_true_eq, beq_iff_eq] using h
  refine ⟨by omega, by omega, ?_⟩
  simp only [isCtlB, Bool.or_eq_false_iff, decide_eq_false_iff_not, not_lt,
    beq_eq_false_iff_ne]
  omega

theorem parse_urlString (u : GoURL)
    (hfrag : u.fragment = [])
    (hs_ne : u.scheme ≠ [])
    (hs_head : isAlphaB (u.scheme.headD 0) = true)
    (hs_all : ∀ b ∈ u.scheme, isSchemeByte b = true ∧ toLowerB b = b)
    (hh : ∀ b ∈ u.host, b ≠ 47 ∧ b ≠ 63 ∧ b ≠ 35 ∧ b ≠ 64 ∧ isCtlB b = false)
    (hp : ∀ b ∈ u.path, b ≠ 63 ∧ b ≠ 35 ∧ isCtlB b = false)
    (hps : u.path = [] ∨ u.path.headD 0 = 47)
    (hq : ∀ b ∈ u.rawQuery, b ≠ 35 ∧ isCtlB b = false) :
    parseURL (urlString u) = some u := by
  obtain ⟨sch, ho, pa, qu, fr⟩ := u
  simp only at hs_ne hs_head hs_all hh hp hps hq hfrag
  subst hfrag
  obtain ⟨c0, pre0, rfl⟩ := List.exists_cons_of_ne_nil hs_ne
  have hschB : ∀ x ∈ c0 :: pre0, isSchemeByte x = true := fun x hx => (hs_all x hx).1
  have hschLow : (c0 :: pre0).map toLowerB = c0 :: pre0 :=
    map_self_of _ _ (fun b hb => (hs_all b hb).2)
  have hQmem : ∀ b ∈ (if qu = [] then ([] : GoStr) else 63 :: qu), b = 63 ∨ b ∈ qu := by
    split_ifs
    · simp
    · intro b hb
      rcases List.mem_cons.mp hb with hb | hb
      · exact Or.inl hb
      · exact Or.inr hb
  have hflat : urlString ⟨c0 :: pre0, ho, pa, qu, []⟩ =
      (c0 :: pre0) ++ 58 :: 47 :: 47 ::
        (ho ++ (pa ++ (if qu = [] then [] else 63 :: qu))) := by
    simp only [urlString]
    rw [show bs "://" = [58, 47, 47] from rfl]
    simp [List.append_assoc]
  rw [hflat]
  have hSmem : ∀ b ∈ (c0 :: pre0) ++ 58 :: 47 :: 47 ::
      (ho ++ (pa ++ (if qu = [] then [] else 63 :: qu))), b ≠ 35 ∧ isCtlB b = false := by
    intro b hb
    rcases List.mem_append.mp hb with hb | hb
    · have := isSchemeByte_facts b (hschB b hb)
      exact ⟨this.1, this.2.2⟩
    · rcases List.mem_cons.mp hb with hb | hb
      · subst hb
        exact ⟨by omega, by decide⟩
      rcases List.mem_cons.mp hb with hb | hb
      · subst hb
        exact ⟨by omega, by decide⟩
      rcases List.mem_cons.mp hb with hb | hb
      · subst hb
        exact ⟨by omega, by decide⟩
      rcases List.mem_append.mp hb with hb | hb
      · have := hh b hb
        exact ⟨this.2.2.1, this.2.2.2.2⟩
      rcases List.mem_append.mp hb with hb | hb
      · have := hp b hb
        exact ⟨this.2.1, this.2.2⟩
      · rcases hQmem b hb with hb63 | hbq
        · subst hb63
          exact ⟨by omega, by decide⟩
        · have := hq b hbq
          exact this
  have h1 : ((c0 :: pre0) ++ 58 :: 47 :: 47 ::
      (ho ++ (pa ++ (if qu = [] then [] else 63 :: qu)))).any isCtlB = false := by
    rw [List.any_eq_false]
    intro b hb
    rw [(hSmem b hb).2]
    exact Bool.false_ne_true
  have h2 : ((c0 :: pre0) ++ 58 :: 47 :: 47 ::
      (ho ++ (pa ++ (if qu = [] then [] else 63 :: qu)))).takeWhile (fun b => b != 35) =
      (c0 :: pre0) ++ 58 :: 47 :: 47 ::
        (ho ++ (pa ++ (if qu = [] then [] else 63 :: qu))) := by
    refine takeWhile_all_eq _ _ (fun x hx => ?_)
    rw [bne_iff_ne]
    exact (hSmem x hx).1
  have h3 : ((c0 :: pre0) ++ 58 :: 47 :: 47 ::
      (ho ++ (pa ++ (if qu = [] then [] else 63 :: qu)))).dropWhile (fun b => b != 35) =
      [] := by
    refine dropWhile_all_eq _ _ (fun x hx => ?_)
    rw [bne_iff_ne]
    exact (hSmem x hx).1
  have h4 : getScheme ((c0 :: pre0) ++ 58 :: 47 :: 47 ::
      (ho ++ (pa ++ (if qu = [] then [] else 63 :: qu)))) =
      some (c0 :: pre0, 47 :: 47 :: (ho ++ (pa ++ (if qu = [] then [] else 63 :: qu)))) := by
    unfold getScheme
    rw [dropWhile_append_of_all _ _ _ hschB, takeWhile_append_of_all _ _ _ hschB]
    simp only [List.dropWhile_cons, List.takeWhile_cons,
      show isSchemeByte 58 = false from rfl, Bool.false_eq_true, if_false,
      List.append_nil, if_true]
    simp only [List.headD_cons] at hs_head
    simp only [if_pos rfl, hs_head, if_true, hschLow]
  have h7 : (ho ++ (pa ++ (if qu = [] then [] else 63 :: qu))).takeWhile
      (fun b => b != 47 && b != 63) = ho := by
    rw [takeWhile_append_of_all _ _ _ (fun x hx => by
      have := hh x hx
      rw [Bool.and_eq_true, bne_iff_ne, bne_iff_ne]
      exact ⟨this.1, this.2.1⟩)]
    have hrest : (pa ++ (if qu = [] then [] else 63 :: qu)).takeWhile
        (fun b => b != 47 && b != 63) = [] := by
      rcases hps with hpa | hpa
      · subst hpa
        simp only [List.nil_append]
        split_ifs with hqe
        · rfl
        · rfl
      · rcases pa with _ | ⟨c, pt⟩
        · exact absurd hpa (by decide)
        · simp only [List.headD_cons] at hpa
          subst hpa
          rfl
    rw [hrest, List.append_nil]
  have h8 : (ho ++ (pa ++ (if qu = [] then [] else 63 :: qu))).dropWhile
      (fun b => b != 47 && b != 63) = pa ++ (if qu = [] then [] else 63 :: qu) := by
    rw [dropWhile_append_of_all _ _ _ (fun x hx => by
      have := hh x hx
      rw [Bool.and_eq_true, bne_iff_ne, bne_iff_ne]
      exact ⟨this.1, this.2.1⟩)]
    rcases hps with hpa | hpa
    · subst hpa
      simp only [List.nil_append]
      split_ifs with hqe
      · rfl
      · rfl
    · rcases pa with _ | ⟨c, pt⟩
      · exact absurd hpa (by decide)
      · simp only [List.headD_cons] at hpa
        subst hpa
        rfl
  have h9 : hostOfAuthority ho = ho := by
    unfold hostOfAuthority
    rw [takeWhile_all_eq _ _ (fun x hx => by
      rw [bne_iff_ne]
      exact (hh x (List.mem_reverse.mp hx)).2.2.2.1)]
    exact List.reverse_reverse ho
  have h10 : (pa ++ (if qu = [] then [] else 63 :: qu)).takeWhile (fun b => b != 63) =
      pa := by
    rw [takeWhile_append_of_all _ _ _ (fun x hx => by
      rw [bne_iff_ne]
      exact (hp x hx).1)]
    split_ifs with hqe
    · simp
    · simp
  have h11 : ((pa ++ (if qu = [] then [] else 63 :: qu)).dropWhile
      (fun b => b != 63)).drop 1 = qu := by
    rw [dropWhile_append_of_all _ _ _ (fun x hx => by
      rw [bne_iff_ne]
      exact (hp x hx).1)]
    split_ifs with hqe
    · subst hqe
      rfl
    · rfl
  simp only [parseURL, h1, Bool.false_eq_true, if_false, h2, h3, h4, List.drop_nil,
    List.drop_succ_cons, List.drop_zero]
  rw [show startsWithB (47 :: 47 :: (ho ++ (pa ++ (if qu = [] then [] else 63 :: qu))))
    (bs "//") = true from rfl]
  simp only [if_true, List.drop_succ_cons, List.drop_zero, h7, h8, h9, h10, h11]

/-! ## The redirection output parses back to its own record -/

/-- The URL record whose rendering `applyRedirection` returns. -/
def redirURL (u : GoURL) : GoURL :=
  { scheme := u.scheme,
    host :=
      (let host0 := u.host.map toLowerB
       if host0.contains 58 then
         (if needsWWW (host0.takeWhile (fun b => b != 58)) then
            bs "www." ++ host0.takeWhile (fun b => b != 58)
          else host0.takeWhile (fun b => b != 58)) ++ host0.dropWhile (fun b => b != 58)
       else if needsWWW host0 then bs "www." ++ host0 else host0),
    path := trimSuffixB (u.path.map toLowerB) (bs "/"),
    rawQuery := encodeQuery ((parseQuery u.rawQuery).map
      (fun p => (p.1, p.2.map (fun v => trimSuffixB v (bs "/"))))),
    fragment := [] }

theorem applyRedirection_eq (u : GoURL) : applyRedirection u = urlString (redirURL u) := rfl

theorem toLowerB_host_good (b : Nat) (h47 : b ≠ 47) (h63 : b ≠ 63) (h35 : b ≠ 35)
    (h64 : b ≠ 64) (hctl : isCtlB b = false) :
    toLowerB b ≠ 47 ∧ toLowerB b ≠ 63 ∧ toLowerB b ≠ 35 ∧ toLowerB b ≠ 64 ∧
      isCtlB (toLowerB b) = false := by
  simp only [isCtlB, Bool.or_eq_false_iff, decide_eq_false_iff_not, not_lt,
    beq_eq_false_iff_ne] at hctl ⊢
  rcases toLowerB_cases b with hc | hc <;> omega

theorem toLowerB_path_good (b : Nat) (h63 : b ≠ 63) (h35 : b ≠ 35)
    (hctl : isCtlB b = false) :
    toLowerB b ≠ 63 ∧ toLowerB b ≠ 35 ∧ isCtlB (toLowerB b) = false := by
  simp only [isCtlB, Bool.or_eq_false_iff, decide_eq_false_iff_not, not_lt,
    beq_eq_false_iff_ne] at hctl ⊢
  rcases toLowerB_cases b with hc | hc <;> omega

theorem redir_host_mem (u : GoURL)
    (hh : ∀ b ∈ u.host, b ≠ 47 ∧ b ≠ 63 ∧ b ≠ 35 ∧ b ≠ 64 ∧ isCtlB b = false) :
    ∀ b ∈ (redirURL u).host, b ≠ 47 ∧ b ≠ 63 ∧ b ≠ 35 ∧ b ≠ 64 ∧ isCtlB b = false := by
  have hh0 : ∀ b ∈ u.host.map toLowerB,
      b ≠ 47 ∧ b ≠ 63 ∧ b ≠ 35 ∧ b ≠ 64 ∧ isCtlB b = false := by
    intro b hb
    rw [List.mem_map] at hb
    obtain ⟨a, ha, rfl⟩ := hb
    obtain ⟨u1, u2, u3, u4, u5⟩ := hh a ha
    exact toLowerB_host_good a u1 u2 u3 u4 u5
  have hwww : ∀ b ∈ bs "www.",
      b ≠ 47 ∧ b ≠ 63 ∧ b ≠ 35 ∧ b ≠ 64 ∧ isCtlB b = false := by decide
  intro b hb
  simp only [redirURL] at hb
  split_ifs at hb with hcont hwn hwn2
  · rcases List.mem_append.mp hb with hb | hb
    · rcases List.mem_append.mp hb with hb | hb
      · exact hwww b hb
      · exact hh0 b ((List.takeWhile_sublist _).mem hb)
    · exact hh0 b ((List.dropWhile_sublist _).mem hb)
  · rcases List.mem_append.mp hb with hb | hb
    · exact hh0 b ((List.takeWhile_sublist _).mem hb)
    · exact hh0 b ((List.dropWhile_sublist _).mem hb)
  · rcases List.mem_append.mp hb with hb | hb
    · exact hwww b hb
    · exact hh0 b hb
  · exact hh0 b hb

theorem redir_path_mem (u : GoURL)
    (hpm : ∀ b ∈ u.path, b ≠ 63 ∧ b ≠ 35 ∧ isCtlB b = false) :
    ∀ b ∈ (redirURL u).path, b ≠ 63 ∧ b ≠ 35 ∧ isCtlB b = false := by
  intro b hb
  simp only [redirURL] at hb
  have hb2 : b ∈ u.path.map toLowerB := by
    unfold trimSuffixB at hb
    split_ifs at hb
    · exact List.mem_of_mem_take hb
    · exact hb
  rw [List.mem_map] at hb2
  obtain ⟨a, ha, rfl⟩ := hb2
  obtain ⟨u1, u2, u3⟩ := hpm a ha
  exact toLowerB_path_good a u1 u2 u3

theorem redir_path_shape (u : GoURL) (hps : u.path = [] ∨ u.path.headD 0 = 47) :
    (redirURL u).path = [] ∨ (redirURL u).path.headD 0 = 47 := by
  simp only [redirURL]
  rcases hpath : u.path with _ | ⟨c, pt⟩
  · left
    rfl
  · rw [hpath] at hps
    rcases hps with h0 | hpa
    · exact absurd h0 (by simp)
    simp only [List.headD_cons] at hpa
    subst hpa
    have hmap : ((47 : Nat) :: pt).map toLowerB = 47 :: pt.map toLowerB := by
      simp [toLowerB]
    rw [hmap]
    unfold trimSuffixB
    split_ifs with hend
    · rcases hk : (47 :: pt.map toLowerB).length - (bs "/").length with _ | k
      · left
        rfl
      · right
        simp
    · right
      rfl

theorem hexDigitB_range (n : Nat) (h : n < 16) :
    (48 ≤ hexDigitB n ∧ hexDigitB n ≤ 57) ∨ (65 ≤ hexDigitB n ∧ hexDigitB n ≤ 70) := by
  unfold hexDigitB
  split_ifs <;> omega

theorem mem_queryEscape (s : GoStr) (b : Nat) (hb : b ∈ queryEscape s) :
    isUnreservedB b = true ∨ b = 43 ∨ b = 37 ∨ (48 ≤ b ∧ b ≤ 57) ∨ (65 ≤ b ∧ b ≤ 70) := by
  unfold queryEscape at hb
  rw [List.mem_flatten] at hb
  obtain ⟨l, hl, hbl⟩ := hb
  rw [List.mem_map] at hl
  obtain ⟨a, _, rfl⟩ := hl
  unfold queryEscapeByte at hbl
  split_ifs at hbl with h1 h2
  · rw [List.mem_singleton] at hbl
    subst hbl
    exact Or.inl h1
  · rw [List.mem_singleton] at hbl
    subst hbl
    exact Or.inr (Or.inl rfl)
  · rcases List.mem_cons.mp hbl with hb37 | hbl2
    · subst hb37
      exact Or.inr (Or.inr (Or.inl rfl))
    rcases List.mem_cons.mp hbl2 with hbh | hbl3
    · subst hbh
      rcases hexDigitB_range (a / 16 % 16) (Nat.mod_lt _ (by omega)) with hr | hr
      · exact Or.inr (Or.inr (Or.inr (Or.inl hr)))
      · exact Or.inr (Or.inr (Or.inr (Or.inr hr)))
    rcases List.mem_cons.mp hbl3 with hbh | hbl4
    · subst hbh
      rcases hexDigitB_range (a % 16) (Nat.mod_lt _ (by omega)) with hr | hr
      · exact Or.inr (Or.inr (Or.inr (Or.inl hr)))
      · exact Or.inr (Or.inr (Or.inr (Or.inr hr)))
    · simp at hbl4

theorem mem_intercalateAmp (ls : List GoStr) (b : Nat)
    (hb : b ∈ List.intercalate [38] ls) : b = 38 ∨ ∃ x ∈ ls, b ∈ x := by
  induction ls with
  | nil => simp [List.intercalate] at hb
  | cons x rest ih =>
      cases rest with
      | nil =>
          simp only [List.intercalate, List.intersperse, List.flatten, List.append_nil] at hb
          exact Or.inr ⟨x, by simp, by simpa using hb⟩
      | cons y rest2 =>
          have hstep : List.intercalate [38] (x :: y :: rest2) =
              x ++ 38 :: List.intercalate [38] (y :: rest2) := by
            simp only [List.intercalate]
            rw [show List.intersperse [38] (x :: y :: rest2) =
              x :: [38] :: List.intersperse [38] (y :: rest2) from rfl]
            simp
          rw [hstep] at hb
          rcases List.mem_append.mp hb with hb | hb
          · exact Or.inr ⟨x, by simp, hb⟩
          rcases List.mem_cons.mp hb with hb | hb
          · exact Or.inl hb
          · rcases ih hb with h38 | ⟨z, hz, hbz⟩
            · exact Or.inl h38
            · exact Or.inr ⟨z, by simp [hz], hbz⟩

theorem mem_encodeQuery_class (m : Values) (b : Nat) (hb : b ∈ encodeQuery m) :
    b = 38 ∨ b = 61 ∨ isUnreservedB b = true ∨ b = 43 ∨ b = 37 ∨
      (48 ≤ b ∧ b ≤ 57) ∨ (65 ≤ b ∧ b ≤ 70) := by
  unfold encodeQuery at hb
  rcases mem_intercalateAmp _ _ hb with h38 | ⟨x, hx, hbx⟩
  · exact Or.inl h38
  · rw [List.mem_flatten] at hx
    obtain ⟨l, hl, hxl⟩ := hx
    rw [List.mem_map] at hl
    obtain ⟨p, _, rfl⟩ := hl
    rw [List.mem_map] at hxl
    obtain ⟨v, _, rfl⟩ := hxl
    rcases List.mem_append.mp hbx with hb2 | hb2
    · rcases List.mem_append.mp hb2 with hb3 | hb3
      · have h5 := mem_queryEscape _ _ hb3
        tauto
      · rw [List.mem_singleton] at hb3
        exact Or.inr (Or.inl hb3)
    · have h5 := mem_queryEscape _ _ hb2
      tauto

theorem encodeClass_facts (b : Nat)
    (h : b = 38 ∨ b = 61 ∨ isUnreservedB b = true ∨ b = 43 ∨ b = 37 ∨
      (48 ≤ b ∧ b ≤ 57) ∨ (65 ≤ b ∧ b ≤ 70)) :
    b ≠ 35 ∧ isCtlB b = false := by
  simp only [isUnreservedB, isDigitB, isAlphaB, Bool.or_eq_true, Bool.and_eq_true,
    decide_eq_true_eq, beq_iff_eq] at h
  simp only [isCtlB, Bool.or_eq_false_iff, decide_eq_false_iff_not, not_lt,
    beq_eq_false_iff_ne]
  omega

theorem redir_query_mem (u : GoURL) :
    ∀ b ∈ (redirURL u).rawQuery, b ≠ 35 ∧ isCtlB b = false := by
  intro b hb
  simp only [redirURL] at hb
  exact encodeClass_facts b (mem_encodeQuery_class _ _ hb)

theorem parse_applyRedirection (raw : GoStr) (u : GoURL) (h : parseURL raw = some u)
    (hs : u.scheme ≠ []) (hho : u.host ≠ []) :
    parseURL (applyRedirection u) = some (redirURL u) := by
  obtain ⟨hsch, hhm, hpm, hshape, hqm⟩ := parseURL_inv raw u h
  rcases hsch with h0 | ⟨hne, hhead, hall⟩
  · exact absurd h0 hs
  rw [applyRedirection_eq]
  exact parse_urlString _ rfl hne hhead hall (redir_host_mem u hhm) (redir_path_mem u hpm)
    (redir_path_shape u (hshape.resolve_left hho)) (redir_query_mem u)

/-! ## Claim C8 -/

/-- C8: the cleanup engine fails exactly when the raw string does not parse
to a URL with a non-empty scheme and host (`invalid url`) or the operation is
outside canonical/redirection/all (`invalid operation` naming them); its
internal reparse can never fail, and in every remaining case it returns a
result. -/
theorem claim_C8_processURL_errors :
    ∀ op raw : GoStr,
      (processURL op raw = .error .invalidURL ↔
        (parseURL raw = none ∨
          ∃ u, parseURL raw = some u ∧ (u.scheme = [] ∨ u.host = []))) ∧
      (processURL op raw = .error .invalidOperation ↔
        ((∃ u, parseURL raw = some u ∧ u.scheme ≠ [] ∧ u.host ≠ []) ∧
          op ≠ bs "canonical" ∧ op ≠ bs "redirection" ∧ op ≠ bs "all")) ∧
      processURL op raw ≠ .error .unexpectedParse ∧
      ((∃ u, parseURL raw = some u ∧ u.scheme ≠ [] ∧ u.host ≠ []) →
        (op = bs "canonical" ∨ op = bs "redirection" ∨ op = bs "all") →
        ∃ out, processURL op raw = .ok out) ∧
      cleanupErrMsg .invalidURL = bs "invalid url" ∧
      cleanupErrMsg .invalidOperation =
        bs "invalid operation (use: redirection|canonical|all)" := by
  intro op raw
  rcases hparse : parseURL raw with _ | u
  · refine ⟨?_, ?_, ?_, ?_, rfl, rfl⟩
    · simp [processURL, hparse]
    · simp [processURL, hparse]
    · simp [processURL, hparse]
    · rintro ⟨u', hu', -, -⟩
      exact absurd hu' (by simp)
  · by_cases hbad : u.scheme = [] ∨ u.host = []
    · refine ⟨?_, ?_, ?_, ?_, rfl, rfl⟩
      · simp only [processURL, hparse]
        rw [if_pos hbad]
        exact ⟨fun _ => Or.inr ⟨u, rfl, hbad⟩, fun _ => rfl⟩
      · simp only [processURL, hparse]
        rw [if_pos hbad]
        constructor
        · intro hcon
          exact absurd hcon (by simp)
        · rintro ⟨⟨u', hu', hs', hh'⟩, -⟩
          obtain rfl : u = u' := Option.some.inj hu'
          rcases hbad with hb | hb
          · exact absurd hb hs'
          · exact absurd hb hh'
      · simp only [processURL, hparse]
        rw [if_pos hbad]
        simp
      · rintro ⟨u', hu', hs', hh'⟩ -
        obtain rfl : u = u' := Option.some.inj hu'
        rcases hbad with hb | hb
        · exact absurd hb hs'
        · exact absurd hb hh'
    · have hs : u.scheme ≠ [] := fun h0 => hbad (Or.inl h0)
      have hh : u.host ≠ [] := fun h0 => hbad (Or.inr h0)
      have hnotbad : ∀ P : Prop,
          ((some u : Option GoURL) = none ∨
            ∃ u', (some u : Option GoURL) = some u' ∧
              (u'.scheme = [] ∨ u'.host = [])) → P := by
        rintro P (hnone | ⟨u', hu', hbad'⟩)
        · exact absurd hnone (by simp)
        · obtain rfl : u = u' := Option.some.inj hu'
          exact absurd hbad' hbad
      by_cases hc1 : op = bs "canonical"
      · refine ⟨?_, ?_, ?_, ?_, rfl, rfl⟩
        · simp only [processURL, hparse, if_neg hbad, if_pos hc1]
          exact ⟨fun hcon => absurd hcon (by simp), fun hr => hnotbad _ hr⟩
        · simp only [processURL, hparse, if_neg hbad, if_pos hc1]
          constructor
          · intro hcon
            exact absurd hcon (by simp)
          · rintro ⟨-, hne, -, -⟩
            exact absurd hc1 hne
        · simp only [processURL, hparse, if_neg hbad, if_pos hc1]
          simp
        · intro _ _
          simp only [processURL, hparse, if_neg hbad, if_pos hc1]
          exact ⟨_, rfl⟩
      · by_cases hc2 : op = bs "redirection"
        · refine ⟨?_, ?_, ?_, ?_, rfl, rfl⟩
          · simp only [processURL, hparse, if_neg hbad, if_neg hc1, if_pos hc2]
            exact ⟨fun hcon => absurd hcon (by simp), fun hr => hnotbad _ hr⟩
          · simp only [processURL, hparse, if_neg hbad, if_neg hc1, if_pos hc2]
            constructor
            · intro hcon
              exact absurd hcon (by simp)
            · rintro ⟨-, -, hne, -⟩
              exact absurd hc2 hne
          · simp only [processURL, hparse, if_neg hbad, if_neg hc1, if_pos hc2]
            simp
          · intro _ _
            simp only [processURL, hparse, if_neg hbad, if_neg hc1, if_pos hc2]
            exact ⟨_, rfl⟩
        · by_cases hc3 : op = bs "all"
          · have hredir := parse_applyRedirection raw u hparse hs hh
            refine ⟨?_, ?_, ?_, ?_, rfl, rfl⟩
            · simp only [processURL, hparse, if_neg hbad, if_neg hc1, if_neg hc2,
                if_pos hc3, hredir]
              exact ⟨fun hcon => absurd hcon (by simp), fun hr => hnotbad _ hr⟩
            · simp only [processURL, hparse, if_neg hbad, if_neg hc1, if_neg hc2,
                if_pos hc3, hredir]
              constructor
              · intro hcon
                exact absurd hcon (by simp)
              · rintro ⟨-, -, -, hne⟩
                exact absurd hc3 hne
            · simp only [processURL, hparse, if_neg hbad, if_neg hc1, if_neg hc2,
                if_pos hc3, hredir]
              simp
            · intro _ _
              simp only [processURL, hparse, if_neg hbad, if_neg hc1, if_neg hc2,
                if_pos hc3, hredir]
              exact ⟨_, rfl⟩
          · refine ⟨?_, ?_, ?_, ?_, rfl, rfl⟩
            · simp only [processURL, hparse, if_neg hbad, if_neg hc1, if_neg hc2,
                if_neg hc3]
              exact ⟨fun hcon => absurd hcon (by simp), fun hr => hnotbad _ hr⟩
            · simp only [processURL, hparse, if_neg hbad, if_neg hc1, if_neg hc2,
                if_neg hc3]
              exact ⟨fun _ => ⟨⟨u, rfl, hs, hh⟩, hc1, hc2, hc3⟩, fun _ => trivial⟩
            · simp only [processURL, hparse, if_neg hbad, if_neg hc1, if_neg hc2,
                if_neg hc3]
              simp
            · rintro - (hop | hop | hop)
              · exact absurd hop hc1
              · exact absurd hop hc2
              · exact absurd hop hc3

/-- Witness for C8 at a concrete URL and operation. -/
theorem claim_C8_witness :
    ∃ out, processURL (bs "all") (bs "https://Sub.Example.com/Path/To/?x=1#frag") =
      .ok out :=
  ((claim_C8_processURL_errors (bs "all")
    (bs "https://Sub.Example.com/Path/To/?x=1#frag")).2.2.2.1)
    ⟨{ scheme := bs "https", host := bs "Sub.Example.com", path := bs "/Path/To/",
        rawQuery := bs "x=1", fragment := bs "frag" }, by decide, by decide, by decide⟩
    (Or.inr (Or.inr rfl))

/-! ## Claim C4 -/

/-- The URL record the canonical operation renders. -/
def canonURL (u : GoURL) : GoURL :=
  { u with rawQuery := [], fragment := [], path := trimSuffixB u.path (bs "/") }

theorem mem_trimSuffixB (s suf : GoStr) (b : Nat) (hb : b ∈ trimSuffixB s suf) :
    b ∈ s := by
  unfold trimSuffixB at hb
  split at hb
  · exact (List.take_sublist _ _).mem hb
  · exact hb

theorem trimSuffixB_shape (s suf : GoStr) (h : s = [] ∨ s.headD 0 = 47) :
    trimSuffixB s suf = [] ∨ (trimSuffixB s suf).headD 0 = 47 := by
  unfold trimSuffixB
  split
  · cases s with
    | nil =>
        left
        simp
    | cons c t =>
        rcases h with h | h
        · exact absurd h (by simp)
        · have hc : c = 47 := by simpa using h
          cases hn : (c :: t).length - suf.length with
          | zero =>
              left
              simp
          | succ k =>
              right
              simp [hc]
  · exact h

theorem trim_slash_twice (p : GoStr) (h : endsWithB p (bs "//") = false) :
    trimSuffixB (trimSuffixB p (bs "/")) (bs "/") = trimSuffixB p (bs "/") := by
  cases he : endsWithB p (bs "/") with
  | false =>
      rw [trimSuffixB_of_no_suffix p _ he, trimSuffixB_of_no_suffix p _ he]
  | true =>
      obtain ⟨q, rfl⟩ := (endsWithB_iff _ _).mp he
      rw [trimSuffixB_append]
      apply trimSuffixB_of_no_suffix
      cases hq : endsWithB q (bs "/") with
      | false => rfl
      | true =>
          exfalso
          obtain ⟨r, rfl⟩ := (endsWithB_iff _ _).mp hq
          have htrue : endsWithB ((r ++ bs "/") ++ bs "/") (bs "//") = true := by
        
            refine (endsWithB_iff _ _).mpr ⟨r, ?_⟩
            have h1 : bs "/" = [47] := by decide
            have h2 : bs "//" = [47, 47] := by decide
            rw [h1, h2, List.append_assoc]
            rfl
          rw [htrue] at h
          cases h

theorem parse_canonical (raw : GoStr) (u : GoURL) (h : parseURL raw = some u)
    (hs : u.scheme ≠ []) (hho : u.host ≠ []) :
    parseURL (urlString (canonURL u)) = some (canonURL u) := by
  obtain ⟨hsch, hh, hp, hshape, hq⟩ := parseURL_inv raw u h
  rcases hsch with hsch | ⟨-, hhead, hall⟩
  · exact absurd hsch hs
  refine parse_urlString (canonURL u) rfl hs hhead hall hh ?_ ?_ ?_
  · intro b hb
    exact hp b (mem_trimSuffixB _ _ b hb)
  · exact trimSuffixB_shape _ _ (hshape.resolve_left hho)
  · intro b hb
    exact absurd hb (List.not_mem_nil b)

/-- C4 (corrected): applying the canonical operation to its own output is a
fixed point provided the original path does not end in a double slash; the
counterexample theorem shows the extra hypothesis is needed. -/
theorem claim_C4_canonical_idempotent (raw s : GoStr) (u : GoURL)
    (h : parseURL raw = some u)
    (hnodbl : endsWithB u.path (bs "//") = false)
    (hok : processURL (bs "canonical") raw = .ok s) :
    processURL (bs "canonical") s = .ok s := by
  simp only [processURL, h] at hok
  by_cases hbad : u.scheme = [] ∨ u.host = []
  · rw [if_pos hbad] at hok
    exact absurd hok (by simp)
  · rw [if_neg hbad, if_pos trivial] at hok
    have hs' : u.scheme ≠ [] := fun h0 => hbad (Or.inl h0)
    have hh' : u.host ≠ [] := fun h0 => hbad (Or.inr h0)
    obtain rfl : s = urlString (canonURL u) := (Except.ok.inj hok).symm
    have hre := parse_canonical raw u h hs' hh'
    simp only [processURL, hre]
    have hbad' : ¬((canonURL u).scheme = [] ∨ (canonURL u).host = []) := hbad
    rw [if_neg hbad', if_pos trivial]
    have hpath := trim_slash_twice u.path hnodbl
    have hrec :
        ({ canonURL u with
            rawQuery := [],
            fragment := [],
            path := trimSuffixB (canonURL u).path (bs "/") } : GoURL) =
          canonURL u := by
      simp [canonURL, hpath]
    rw [hrec]

/-- C4 counterexample: on a path ending in `//`, canonical strips only one
slash, so a second application strips another and the output changes. -/
theorem claim_C4_counterexample :
    processURL (bs "canonical") (bs "https://example.com//") =
      .ok (bs "https://example.com/") ∧
    processURL (bs "canonical") (bs "https://example.com/") =
      .ok (bs "https://example.com") ∧
    bs "https://example.com/" ≠ bs "https://example.com" := by decide

/-- Witness for the amended C4 theorem at a concrete URL. -/
theorem claim_C4_witness :
    processURL (bs "canonical") (bs "https://example.com/a") =
      .ok (bs "https://example.com/a") :=
  claim_C4_canonical_idempotent (bs "https://example.com/a/")
    (bs "https://example.com/a")
    { scheme := bs "https", host := bs "example.com", path := bs "/a/",
      rawQuery := [], fragment := [] }
    (by decide) (by decide) (by decide)

/-! ## Claim C1: decoded-query machinery -/

/-- `url.Values` map indexing: the list of values stored under a key. -/
def valuesGet (m : Values) (k : GoStr) : List GoStr :=
  match m with
  | [] => []
  | (k0, vs) :: rest => if k0 == k then vs else valuesGet rest k

theorem unesc_pct (h1 h2 : Nat) (rest : GoStr) :
    queryUnescape (37 :: h1 :: h2 :: rest) =
      match unhexB h1, unhexB h2, queryUnescape rest with
      | some a, some b, some r => some ((16 * a + b) :: r)
      | _, _, _ => none := by
  rw [queryUnescape]

theorem unesc_plus (rest : GoStr) :
    queryUnescape (43 :: rest) = (queryUnescape rest).map (fun r => 32 :: r) := by
  rw [queryUnescape]

theorem unesc_cons (b : Nat) (rest : GoStr) (h37 : b ≠ 37) (h43 : b ≠ 43) :
    queryUnescape (b :: rest) = (queryUnescape rest).map (fun r => b :: r) := by
  rcases rest with _ | ⟨c, rest2⟩
  · simp [queryUnescape, h37, h43]
  · rcases rest2 with _ | ⟨d, rest3⟩
    · simp [queryUnescape, h37, h43]
    · simp [queryUnescape, h37, h43]

theorem isUnreservedB_ne (b : Nat) (h : isUnreservedB b = true) :
    b ≠ 37 ∧ b ≠ 43 ∧ b ≠ 38 ∧ b ≠ 61 ∧ b ≠ 59 := by
  simp only [isUnreservedB, isDigitB, isAlphaB, Bool.or_eq_true, Bool.and_eq_true,
    decide_eq_true_eq, beq_iff_eq] at h
  omega

theorem unhexB_hexDigitB (n : Nat) (h : n < 16) : unhexB (hexDigitB n) = some n := by
  simp only [hexDigitB, unhexB]
  split_ifs
  all_goals first | (exfalso ; omega) | (simp only [Option.some.injEq] ; omega)

theorem unesc_escByte (b : Nat) (hb : b < 256) (rest : GoStr) :
    queryUnescape (queryEscapeByte b ++ rest) =
      (queryUnescape rest).map (fun r => b :: r) := by
  unfold queryEscapeByte
  split_ifs with h1 h2
  · obtain ⟨n37, n43, -, -, -⟩ := isUnreservedB_ne b h1
    simpa using unesc_cons b rest n37 n43
  · have hb32 : b = 32 := by simpa using h2
    subst hb32
    simpa using unesc_plus rest
  · have e1 : [37, hexDigitB (b / 16 % 16), hexDigitB (b % 16)] ++ rest =
        37 :: hexDigitB (b / 16 % 16) :: hexDigitB (b % 16) :: rest := rfl
    rw [e1, unesc_pct, unhexB_hexDigitB _ (Nat.mod_lt _ (by omega)),
      unhexB_hexDigitB _ (Nat.mod_lt _ (by omega))]
    cases hq : queryUnescape rest with
    | none => rfl
    | some r =>
        have hbb : 16 * (b / 16 % 16) + b % 16 = b := by omega
        show some ((16 * (b / 16 % 16) + b % 16) :: r) =
          Option.map (fun r => b :: r) (some r)
        rw [hbb]
        rfl

theorem unesc_escape_append (s rest : GoStr) (hs : ∀ b ∈ s, b < 256) :
    queryUnescape (queryEscape s ++ rest) =
      (queryUnescape rest).map (fun r => s ++ r) := by
  induction s with
  | nil =>
      have hnil : queryEscape [] ++ rest = rest := by simp [queryEscape]
      rw [hnil]
      cases queryUnescape rest <;> rfl
  | cons b t ih =>
      have hb := hs b (by simp)
      have ht : ∀ x ∈ t, x < 256 := fun x hx => hs x (by simp [hx])
      have he : queryEscape (b :: t) = queryEscapeByte b ++ queryEscape t := by
        simp [queryEscape]
      rw [he, List.append_assoc, unesc_escByte b hb, ih ht]
      cases queryUnescape rest <;> rfl

theorem unesc_escape (s : GoStr) (hs : ∀ b ∈ s, b < 256) :
    queryUnescape (queryEscape s) = some s := by
  have h := unesc_escape_append s [] hs
  rw [List.append_nil] at h
  rw [h, show queryUnescape ([] : GoStr) = some [] from rfl]
  simp

theorem queryEscape_no_amp (s : GoStr) :
    38 ∉ queryEscape s ∧ 61 ∉ queryEscape s ∧ 59 ∉ queryEscape s := by
  refine ⟨fun h => ?_, fun h => ?_, fun h => ?_⟩ <;>
    rcases mem_queryEscape s _ h with h | h | h | h | h <;>
      first | (revert h ; decide) | omega

theorem parsePiece_encPair (m : Values) (k v : GoStr) (hk : ∀ b ∈ k, b < 256)
    (hv : ∀ b ∈ v, b < 256) :
    parsePiece m (queryEscape k ++ [61] ++ queryEscape v) = valuesAdd m k v := by
  have h59 : ¬((queryEscape k ++ [61] ++ queryEscape v).contains 59 = true) := by
    intro hc
    have hmem : (59 : Nat) ∈ queryEscape k ++ [61] ++ queryEscape v := by simpa using hc
    rcases List.mem_append.mp hmem with hmem | hmem
    · rcases List.mem_append.mp hmem with hmem | hmem
      · exact (queryEscape_no_amp k).2.2 hmem
      · simp at hmem
    · exact (queryEscape_no_amp v).2.2 hmem
  have hne : ¬(queryEscape k ++ [61] ++ queryEscape v = []) := by simp
  have hno61 : ∀ b ∈ queryEscape k, (b != 61) = true := by
    intro b hbk
    rw [bne_iff_ne]
    intro h61
    subst h61
    exact (queryEscape_no_amp k).2.1 hbk
  have htake : (queryEscape k ++ [61] ++ queryEscape v).takeWhile (fun b => b != 61) =
      queryEscape k := by
    rw [List.append_assoc, takeWhile_append_of_all _ _ _ hno61]
    simp [List.takeWhile_cons]
  have hdrop : ((queryEscape k ++ [61] ++ queryEscape v).dropWhile
      (fun b => b != 61)).drop 1 = queryEscape v := by
    rw [List.append_assoc, dropWhile_append_of_all _ _ _ hno61]
    simp [List.dropWhile_cons]
  simp only [parsePiece, htake, hdrop, unesc_escape k hk, unesc_escape v hv]
  rw [if_neg h59, if_neg hne]

/-! ## Claim C1: rebuilding `Values` from an encoded query -/

/-- Well-formedness of a `Values` map: keys are pairwise distinct and every
key carries at least one value. -/
def goodVals (m : Values) : Prop :=
  m.Pairwise (fun p q => p.1 ≠ q.1) ∧ ∀ p ∈ m, p.2 ≠ []

/-- All keys and values consist of byte values. -/
def boundedVals (m : Values) : Prop :=
  ∀ p ∈ m, (∀ b ∈ p.1, b < 256) ∧ ∀ v ∈ p.2, ∀ b ∈ v, b < 256

theorem valuesAdd_append_last (acc : Values) (k : GoStr) (vs : List GoStr)
    (v : GoStr) (hk : ∀ p ∈ acc, p.1 ≠ k) :
    valuesAdd (acc ++ [(k, vs)]) k v = acc ++ [(k, vs ++ [v])] := by
  induction acc with
  | nil => simp [valuesAdd]
  | cons p acc' ih =>
      obtain ⟨k0, vs0⟩ := p
      have hk0 : ¬(k0 == k) = true := by
        intro hc
        exact hk (k0, vs0) (by simp) (by simpa using hc)
      simp only [List.cons_append, valuesAdd, if_neg hk0, List.append_eq]
      rw [ih (fun p hp => hk p (by simp [hp]))]

theorem valuesAdd_new (acc : Values) (k v : GoStr) (hk : ∀ p ∈ acc, p.1 ≠ k) :
    valuesAdd acc k v = acc ++ [(k, [v])] := by
  induction acc with
  | nil => simp [valuesAdd]
  | cons p acc' ih =>
      obtain ⟨k0, vs0⟩ := p
      have hk0 : ¬(k0 == k) = true := by
        intro hc
        exact hk (k0, vs0) (by simp) (by simpa using hc)
      simp only [valuesAdd, if_neg hk0]
      rw [ih (fun p hp => hk p (by simp [hp]))]
      rfl

theorem foldl_parsePiece_key (k : GoStr) (vl : List GoStr) (acc : Values)
    (vs : List GoStr) (hk : ∀ p ∈ acc, p.1 ≠ k) (hk256 : ∀ b ∈ k, b < 256)
    (hv256 : ∀ w ∈ vl, ∀ b ∈ w, b < 256) :
    (vl.map (fun w => queryEscape k ++ [61] ++ queryEscape w)).foldl parsePiece
      (acc ++ [(k, vs)]) = acc ++ [(k, vs ++ vl)] := by
  induction vl generalizing vs with
  | nil => simp
  | cons w vl' ih =>
      simp only [List.map_cons, List.foldl_cons]
      rw [parsePiece_encPair _ _ _ hk256 (hv256 w (by simp)),
        valuesAdd_append_last acc k vs w hk,
        ih (vs ++ [w]) (fun x hx => hv256 x (by simp [hx]))]
      simp

theorem foldl_parsePiece_pieces (ms : Values) (acc : Values)
    (hbnd : boundedVals ms) (hne : ∀ p ∈ ms, p.2 ≠ [])
    (hpw : ms.Pairwise (fun p q => p.1 ≠ q.1))
    (hdisj : ∀ p ∈ ms, ∀ q ∈ acc, q.1 ≠ p.1) :
    ((ms.map (fun p => p.2.map
        (fun v => queryEscape p.1 ++ [61] ++ queryEscape v))).flatten).foldl
      parsePiece acc = acc ++ ms := by
  induction ms generalizing acc with
  | nil => simp
  | cons p ms' ih =>
      obtain ⟨k, vs⟩ := p
      obtain ⟨v, vl, rfl⟩ := List.exists_cons_of_ne_nil (hne (k, vs) (by simp))
      rw [List.pairwise_cons] at hpw
      obtain ⟨hhead, htail⟩ := hpw
      have hk256 : ∀ b ∈ k, b < 256 := (hbnd (k, v :: vl) (by simp)).1
      have hv256 : ∀ w ∈ v :: vl, ∀ b ∈ w, b < 256 := (hbnd (k, v :: vl) (by simp)).2
      have hkacc : ∀ q ∈ acc, q.1 ≠ k := fun q hq => hdisj (k, v :: vl) (by simp) q hq
      simp only [List.map_cons, List.flatten_cons]
      rw [List.foldl_append]
      simp only [List.map_cons, List.foldl_cons]
      rw [parsePiece_encPair _ _ _ hk256 (hv256 v (by simp)),
        valuesAdd_new acc k v hkacc,
        foldl_parsePiece_key k vl acc [v] hkacc hk256
          (fun w hw => hv256 w (by simp [hw]))]
      have hdisj' : ∀ p ∈ ms', ∀ q ∈ acc ++ [(k, [v] ++ vl)], q.1 ≠ p.1 := by
        intro p hp q hq
        rcases List.mem_append.mp hq with hq | hq
        · exact hdisj p (by simp [hp]) q hq
        · rw [List.mem_singleton] at hq
          subst hq
          exact hhead p hp
      rw [ih (acc ++ [(k, [v] ++ vl)])
        (fun p hp => hbnd p (by simp [hp]))
        (fun p hp => hne p (by simp [hp])) htail hdisj']
      simp

theorem parseQuery_encodeQuery (m : Values) (hgood : goodVals m)
    (hb : boundedVals m) :
    parseQuery (encodeQuery m) =
      List.insertionSort (fun p q : GoStr × List GoStr => strLeB p.1 q.1 = true) m := by
  rcases hm : m with _ | ⟨p0, m0⟩
  · decide
  rw [← hm]
  have hperm : (List.insertionSort
      (fun p q : GoStr × List GoStr => strLeB p.1 q.1 = true) m).Perm m :=
    List.perm_insertionSort _ m
  have hpw' : (List.insertionSort
      (fun p q : GoStr × List GoStr => strLeB p.1 q.1 = true) m).Pairwise
      (fun p q => p.1 ≠ q.1) :=
    (List.Perm.pairwise_iff (fun h => Ne.symm h) hperm).mpr hgood.1
  have hne' : ∀ p ∈ List.insertionSort
      (fun p q : GoStr × List GoStr => strLeB p.1 q.1 = true) m, p.2 ≠ [] :=
    fun p hp => hgood.2 p (hperm.mem_iff.mp hp)
  have hbnd' : boundedVals (List.insertionSort
      (fun p q : GoStr × List GoStr => strLeB p.1 q.1 = true) m) :=
    fun p hp => hb p (hperm.mem_iff.mp hp)
  have hsne : List.insertionSort
      (fun p q : GoStr × List GoStr => strLeB p.1 q.1 = true) m ≠ [] := by
    intro hnil
    have hlen := hperm.length_eq
    rw [hnil, hm] at hlen
    simp at hlen
  obtain ⟨q0, s0, hs⟩ := List.exists_cons_of_ne_nil hsne
  have hno38 : ∀ piece ∈ (List.insertionSort
      (fun p q : GoStr × List GoStr => strLeB p.1 q.1 = true) m).map
        (fun p => p.2.map (fun v => queryEscape p.1 ++ [61] ++ queryEscape v)),
      ∀ x ∈ piece, (38 : Nat) ∉ x := by
    intro piece hpiece x hx hmem
    rw [List.mem_map] at hpiece
    obtain ⟨p, -, rfl⟩ := hpiece
    rw [List.mem_map] at hx
    obtain ⟨v, -, rfl⟩ := hx
    rcases List.mem_append.mp hmem with h1 | h1
    · rcases List.mem_append.mp h1 with h2 | h2
      · exact (queryEscape_no_amp p.1).1 h2
      · simp at h2
    · exact (queryEscape_no_amp v).1 h1
  have hpne : ((List.insertionSort
      (fun p q : GoStr × List GoStr => strLeB p.1 q.1 = true) m).map
        (fun p => p.2.map (fun v => queryEscape p.1 ++ [61] ++ queryEscape v))).flatten
      ≠ [] := by
    rw [hs]
    obtain ⟨v0, vl0, hv0⟩ := List.exists_cons_of_ne_nil (hne' q0 (by rw [hs] ; simp))
    rw [List.map_cons, List.flatten_cons, hv0, List.map_cons]
    simp
  have henc : encodeQuery m = List.intercalate [38]
      ((List.insertionSort
        (fun p q : GoStr × List GoStr => strLeB p.1 q.1 = true) m).map
          (fun p => p.2.map
            (fun v => queryEscape p.1 ++ [61] ++ queryEscape v))).flatten := rfl
  have hno38' : ∀ x ∈ ((List.insertionSort
      (fun p q : GoStr × List GoStr => strLeB p.1 q.1 = true) m).map
        (fun p => p.2.map (fun v => queryEscape p.1 ++ [61] ++ queryEscape v))).flatten,
      (38 : Nat) ∉ x := by
    intro x hx
    rw [List.mem_flatten] at hx
    obtain ⟨piece, hpiece, hxp⟩ := hx
    exact hno38 piece hpiece x hxp
  simp only [parseQuery]
  rw [henc, List.splitOn_intercalate _ 38 hno38' hpne]
  have hfold := foldl_parsePiece_pieces (List.insertionSort
      (fun p q : GoStr × List GoStr => strLeB p.1 q.1 = true) m) [] hbnd' hne' hpw'
    (fun p _ q hq => absurd hq (List.not_mem_nil q))
  rw [hfold]
  simp

/-! ## Claim C1: invariants of `parseQuery` -/

theorem unhexB_le (x a : Nat) (h : unhexB x = some a) : a ≤ 15 := by
  unfold unhexB at h
  split_ifs at h <;> simp only [Option.some.injEq] at h <;> omega

theorem unesc_bytes : ∀ (n : Nat) (s : GoStr), s.length ≤ n → ∀ r,
    queryUnescape s = some r → (∀ b ∈ s, b < 256) → ∀ b ∈ r, b < 256 := by
  intro n
  induction n with
  | zero =>
      intro s hl r hr hs b hb
      have hs0 : s = [] := List.eq_nil_of_length_eq_zero (Nat.le_zero.mp hl)
      subst hs0
      rw [show queryUnescape [] = some [] from rfl] at hr
      obtain rfl : ([] : GoStr) = r := Option.some.inj hr
      simp at hb
  | succ n ih =>
      intro s hl r hr hs b hb
      rcases s with _ | ⟨c, rest⟩
      · rw [show queryUnescape [] = some [] from rfl] at hr
        obtain rfl : ([] : GoStr) = r := Option.some.inj hr
        simp at hb
      by_cases h37 : c = 37
      · subst h37
        rcases rest with _ | ⟨h1, rest1⟩
        · rw [show queryUnescape [37] = none from rfl] at hr
          cases hr
        rcases rest1 with _ | ⟨h2, rest2⟩
        · rw [show queryUnescape [37, h1] = none from rfl] at hr
          cases hr
        rw [unesc_pct] at hr
        cases ha : unhexB h1 <;> rw [ha] at hr
        · cases hc2 : unhexB h2 <;> rw [hc2] at hr <;>
            cases hq : queryUnescape rest2 <;> rw [hq] at hr <;> cases hr
        cases hc2 : unhexB h2 <;> rw [hc2] at hr
        · cases hq : queryUnescape rest2 <;> rw [hq] at hr <;> cases hr
        cases hq : queryUnescape rest2 <;> rw [hq] at hr
        · cases hr
        rename_i a cc r2
        have hrr : (16 * a + cc) :: r2 = r := Option.some.inj hr
        subst hrr
        rcases List.mem_cons.mp hb with rfl | hb2
        · have h1le := unhexB_le h1 a ha
          have h2le := unhexB_le h2 cc hc2
          omega
        · refine ih rest2 (by simp at hl ; omega) r2 hq ?_ b hb2
          intro x hx
          exact hs x (by simp [hx])
      by_cases h43 : c = 43
      · subst h43
        rw [unesc_plus] at hr
        cases hq : queryUnescape rest <;> rw [hq] at hr
        · cases hr
        rename_i r2
        have hrr : 32 :: r2 = r := Option.some.inj (by simpa using hr)
        subst hrr
        rcases List.mem_cons.mp hb with rfl | hb2
        · omega
        · refine ih rest (by simp at hl ; omega) r2 hq ?_ b hb2
          intro x hx
          exact hs x (by simp [hx])
      · rw [unesc_cons c rest h37 h43] at hr
        cases hq : queryUnescape rest <;> rw [hq] at hr
        · cases hr
        rename_i r2
        have hrr : c :: r2 = r := Option.some.inj (by simpa using hr)
        subst hrr
        rcases List.mem_cons.mp hb with rfl | hb2
        · exact hs b (by simp)
        · refine ih rest (by simp at hl ; omega) r2 hq ?_ b hb2
          intro x hx
          exact hs x (by simp [hx])

theorem unesc_bytes' (s r : GoStr) (h : queryUnescape s = some r)
    (hs : ∀ b ∈ s, b < 256) : ∀ b ∈ r, b < 256 :=
  unesc_bytes s.length s le_rfl r h hs

theorem mem_intercalate_of_mem (ls : List GoStr) (x : GoStr) (hx : x ∈ ls)
    (b : Nat) (hb : b ∈ x) : b ∈ List.intercalate [38] ls := by
  induction ls with
  | nil => simp at hx
  | cons y rest ih =>
      cases rest with
      | nil =>
          rw [List.mem_singleton] at hx
          subst hx
          simpa [List.intercalate, List.intersperse] using hb
      | cons z rest2 =>
          have hstep : List.intercalate [38] (y :: z :: rest2) =
              y ++ 38 :: List.intercalate [38] (z :: rest2) := by
            simp only [List.intercalate]
            rw [show List.intersperse [38] (y :: z :: rest2) =
              y :: [38] :: List.intersperse [38] (z :: rest2) from rfl]
            simp
          rw [hstep]
          rcases List.mem_cons.mp hx with rfl | hx2
          · exact List.mem_append.mpr (Or.inl hb)
          · exact List.mem_append.mpr
              (Or.inr (List.mem_cons.mpr (Or.inr (ih hx2))))

theorem splitOn_bytes (q : GoStr) (h : ∀ b ∈ q, b < 256) :
    ∀ piece ∈ q.splitOn 38, ∀ b ∈ piece, b < 256 := by
  intro piece hp b hb
  apply h
  have hmem : b ∈ List.intercalate [38] (q.splitOn 38) :=
    mem_intercalate_of_mem _ piece hp b hb
  rwa [List.intercalate_splitOn] at hmem

theorem valuesAdd_cases (m : Values) (k v : GoStr) (p : GoStr × List GoStr)
    (hp : p ∈ valuesAdd m k v) :
    p ∈ m ∨ (∃ vs, (p.1, vs) ∈ m ∧ p.2 = vs ++ [v] ∧ p.1 = k) ∨ p = (k, [v]) := by
  induction m with
  | nil =>
      simp only [valuesAdd, List.mem_singleton] at hp
      exact Or.inr (Or.inr hp)
  | cons q m' ih =>
      obtain ⟨k0, vs0⟩ := q
      simp only [valuesAdd] at hp
      by_cases hk : (k0 == k) = true
      · rw [if_pos hk] at hp
        rcases List.mem_cons.mp hp with rfl | hpm
        · exact Or.inr (Or.inl ⟨vs0, by simp, rfl, beq_iff_eq.mp hk⟩)
        · exact Or.inl (List.mem_cons.mpr (Or.inr hpm))
      · rw [if_neg hk] at hp
        rcases List.mem_cons.mp hp with rfl | hpm
        · exact Or.inl (by simp)
        · rcases ih hpm with h | ⟨vs, hvs, he, hk1⟩ | h
          · exact Or.inl (List.mem_cons.mpr (Or.inr h))
          · exact Or.inr (Or.inl ⟨vs, List.mem_cons.mpr (Or.inr hvs), he, hk1⟩)
          · exact Or.inr (Or.inr h)

theorem pairwise_valuesAdd (m : Values) (k v : GoStr)
    (hpw : m.Pairwise (fun p q => p.1 ≠ q.1)) :
    (valuesAdd m k v).Pairwise (fun p q => p.1 ≠ q.1) := by
  induction m with
  | nil => simp [valuesAdd]
  | cons q m' ih =>
      obtain ⟨k0, vs0⟩ := q
      rw [List.pairwise_cons] at hpw
      obtain ⟨hhead, htail⟩ := hpw
      simp only [valuesAdd]
      by_cases hk : (k0 == k) = true
      · rw [if_pos hk]
        exact List.pairwise_cons.mpr ⟨fun q hq => hhead q hq, htail⟩
      · rw [if_neg hk]
        refine List.pairwise_cons.mpr ⟨?_, ih htail⟩
        intro q hq
        rcases valuesAdd_cases m' k v q hq with h | ⟨vs, hvs, -, hk1⟩ | rfl
        · exact hhead q h
        · exact hhead (q.1, vs) hvs
        · exact fun he => hk (beq_iff_eq.mpr he)

theorem nonempty_valuesAdd (m : Values) (k v : GoStr)
    (hne : ∀ p ∈ m, p.2 ≠ []) : ∀ p ∈ valuesAdd m k v, p.2 ≠ [] := by
  intro p hp
  rcases valuesAdd_cases m k v p hp with h | ⟨vs, -, he, -⟩ | rfl
  · exact hne p h
  · rw [he]
    simp
  · simp

theorem bounded_valuesAdd (m : Values) (k v : GoStr) (hb : boundedVals m)
    (hk : ∀ b ∈ k, b < 256) (hv : ∀ b ∈ v, b < 256) :
    boundedVals (valuesAdd m k v) := by
  intro p hp
  rcases valuesAdd_cases m k v p hp with h | ⟨vs, hvs, he, hk1⟩ | rfl
  · exact hb p h
  · refine ⟨(hb (p.1, vs) hvs).1, ?_⟩
    rw [he]
    intro w hw
    rcases List.mem_append.mp hw with hw | hw
    · exact (hb (p.1, vs) hvs).2 w hw
    · rw [List.mem_singleton] at hw
      subst hw
      exact hv
  · exact ⟨hk, fun w hw => by rw [List.mem_singleton] at hw ; subst hw ; exact hv⟩

theorem parsePiece_inv (m : Values) (piece : GoStr) (hpb : ∀ b ∈ piece, b < 256)
    (hg : goodVals m) (hbm : boundedVals m) :
    goodVals (parsePiece m piece) ∧ boundedVals (parsePiece m piece) := by
  simp only [parsePiece]
  split_ifs with h59 hemp
  · exact ⟨hg, hbm⟩
  · exact ⟨hg, hbm⟩
  · cases hk : queryUnescape (piece.takeWhile (fun b => b != 61)) with
    | none => exact ⟨hg, hbm⟩
    | some k2 =>
        cases hv : queryUnescape ((piece.dropWhile (fun b => b != 61)).drop 1) with
        | none => exact ⟨hg, hbm⟩
        | some v2 =>
            have hk256 : ∀ b ∈ k2, b < 256 := by
              refine unesc_bytes' _ _ hk ?_
              intro x hx
              exact hpb x ((List.takeWhile_sublist _).mem hx)
            have hv256 : ∀ b ∈ v2, b < 256 := by
              refine unesc_bytes' _ _ hv ?_
              intro x hx
              exact hpb x ((List.dropWhile_sublist _).mem (List.mem_of_mem_drop hx))
            exact ⟨⟨pairwise_valuesAdd m k2 v2 hg.1, nonempty_valuesAdd m k2 v2 hg.2⟩,
              bounded_valuesAdd m k2 v2 hbm hk256 hv256⟩

theorem parseQuery_inv (q : GoStr) (hq : ∀ b ∈ q, b < 256) :
    goodVals (parseQuery q) ∧ boundedVals (parseQuery q) := by
  have hgen : ∀ (ps : List GoStr), (∀ piece ∈ ps, ∀ b ∈ piece, b < 256) →
      ∀ acc, goodVals acc → boundedVals acc →
        goodVals (ps.foldl parsePiece acc) ∧ boundedVals (ps.foldl parsePiece acc) := by
    intro ps
    induction ps with
    | nil => exact fun _ acc hg hb => ⟨hg, hb⟩
    | cons piece ps' ih =>
        intro hps acc hg hb
        rw [List.foldl_cons]
        obtain ⟨hg', hb'⟩ := parsePiece_inv acc piece (hps piece (by simp)) hg hb
        exact ih (fun x hx => hps x (by simp [hx])) _ hg' hb'
  exact hgen (q.splitOn 38) (splitOn_bytes q hq) []
    ⟨List.Pairwise.nil, fun p hp => absurd hp (List.not_mem_nil p)⟩
    (fun p hp => absurd hp (List.not_mem_nil p))

/-! ## Claim C1: lookups -/

theorem valuesGet_perm (m m' : Values) (hperm : m.Perm m') (k : GoStr) :
    m.Pairwise (fun p q => p.1 ≠ q.1) → valuesGet m k = valuesGet m' k := by
  induction hperm with
  | nil => exact fun _ => rfl
  | cons x h ih =>
      intro hpw
      rw [List.pairwise_cons] at hpw
      obtain ⟨k0, vs0⟩ := x
      by_cases hkk : (k0 == k) = true
      · simp [valuesGet, hkk]
      · simp [valuesGet, hkk, ih hpw.2]
  | swap x y l =>
      intro hpw
      rw [List.pairwise_cons] at hpw
      obtain ⟨hhead, -⟩ := hpw
      obtain ⟨k0, vs0⟩ := x
      obtain ⟨k1, vs1⟩ := y
      have hne01 : k1 ≠ k0 := hhead (k0, vs0) (by simp)
      by_cases h0 : (k0 == k) = true
      · have h1 : ¬(k1 == k) = true := by
          intro hc
          exact hne01 ((beq_iff_eq.mp hc).trans (beq_iff_eq.mp h0).symm)
        simp [valuesGet, h0, h1]
      · by_cases h1 : (k1 == k) = true
        · simp [valuesGet, h0, h1]
        · simp [valuesGet, h0, h1]
  | trans h1 h2 ih1 ih2 =>
      intro hpw
      exact (ih1 hpw).trans
        (ih2 ((List.Perm.pairwise_iff (fun h => Ne.symm h) h1).mp hpw))

theorem valuesGet_mapVals (m : Values) (f : List GoStr → List GoStr)
    (hf : f [] = []) (k : GoStr) :
    valuesGet (m.map (fun p => (p.1, f p.2))) k = f (valuesGet m k) := by
  induction m with
  | nil => simp [valuesGet, hf]
  | cons p m' ih =>
      obtain ⟨k0, vs0⟩ := p
      by_cases hk : (k0 == k) = true
      · simp [valuesGet, hk]
      · simp [valuesGet, hk, ih]

/-! ## Claim C1 -/

theorem redir_query_lookup (u : GoURL) (h256 : ∀ b ∈ u.rawQuery, b < 256)
    (k : GoStr) :
    valuesGet (parseQuery (redirURL u).rawQuery) k =
      (valuesGet (parseQuery u.rawQuery) k).map (fun v => trimSuffixB v (bs "/")) := by
  obtain ⟨hgood, hbnd⟩ := parseQuery_inv u.rawQuery h256
  have hgood2 : goodVals ((parseQuery u.rawQuery).map
      (fun p => (p.1, p.2.map (fun v => trimSuffixB v (bs "/"))))) := by
    constructor
    · rw [List.pairwise_map]
      exact hgood.1
    · intro p hp
      rw [List.mem_map] at hp
      obtain ⟨q, hq, rfl⟩ := hp
      intro hnil
      exact hgood.2 q hq (by simpa using hnil)
  have hbnd2 : boundedVals ((parseQuery u.rawQuery).map
      (fun p => (p.1, p.2.map (fun v => trimSuffixB v (bs "/"))))) := by
    intro p hp
    rw [List.mem_map] at hp
    obtain ⟨q, hq, rfl⟩ := hp
    refine ⟨(hbnd q hq).1, ?_⟩
    intro v hv
    rw [List.mem_map] at hv
    obtain ⟨w, hw, rfl⟩ := hv
    intro b hb
    exact (hbnd q hq).2 w hw b (mem_trimSuffixB _ _ b hb)
  have hq2 : (redirURL u).rawQuery = encodeQuery ((parseQuery u.rawQuery).map
      (fun p => (p.1, p.2.map (fun v => trimSuffixB v (bs "/"))))) := rfl
  rw [hq2, parseQuery_encodeQuery _ hgood2 hbnd2,
    valuesGet_perm _ _ (List.perm_insertionSort _ _) k
      ((List.Perm.pairwise_iff (fun h => Ne.symm h)
        (List.perm_insertionSort _ _)).mpr hgood2.1)]
  exact valuesGet_mapVals (parseQuery u.rawQuery)
    (fun vs => vs.map (fun v => trimSuffixB v (bs "/"))) rfl k

/-- C1 (corrected): redirection does not keep the query "in the same form" —
`Values.Encode` re-sorts the parameters by key (see the counterexample) — but
it does preserve the decoded content: for every parameter name the list of
decoded values is kept, with exactly one trailing slash stripped from each
value and names untouched; the spec's scenario-2 example holds verbatim. -/
theorem claim_C1_redirection_query :
    (∀ raw u, parseURL raw = some u → u.scheme ≠ [] → u.host ≠ [] →
      (∀ b ∈ u.rawQuery, b < 256) →
      ∀ out, processURL (bs "redirection") raw = .ok out →
        ∃ u2, parseURL out = some u2 ∧ u2.fragment = [] ∧
          ∀ k, valuesGet (parseQuery u2.rawQuery) k =
            (valuesGet (parseQuery u.rawQuery) k).map
              (fun v => trimSuffixB v (bs "/"))) ∧
    processURL (bs "redirection") (bs "https://example.com/Path/To/?x=1&y=2") =
      .ok (bs "https://www.example.com/path/to?x=1&y=2") := by
  constructor
  · intro raw u h hs hho h256 out hok
    simp only [processURL, h] at hok
    have hbad : ¬(u.scheme = [] ∨ u.host = []) := by
      rintro (hb | hb)
      · exact hs hb
      · exact hho hb
    rw [if_neg hbad, if_neg (by decide : ¬(bs "redirection" = bs "canonical")),
      if_pos trivial] at hok
    obtain rfl : out = applyRedirection u := (Except.ok.inj hok).symm
    refine ⟨redirURL u, parse_applyRedirection raw u h hs hho, rfl, ?_⟩
    intro k
    exact redir_query_lookup u h256 k
  · decide

/-- C1 counterexample: the emitted query is re-sorted by parameter name, so
its textual form differs from the input query. -/
theorem claim_C1_counterexample :
    processURL (bs "redirection") (bs "https://example.com/a?y=2&x=1") =
      .ok (bs "https://www.example.com/a?x=1&y=2") ∧
    parseURL (bs "https://example.com/a?y=2&x=1") =
      some { scheme := bs "https", host := bs "example.com", path := bs "/a",
             rawQuery := bs "y=2&x=1", fragment := [] } ∧
    bs "y=2&x=1" ≠ bs "x=1&y=2" := by decide

/-- Witness for the amended C1 theorem at a concrete URL whose query holds an
escaped slash-carrying value. -/
theorem claim_C1_witness :
    ∃ u2, parseURL (bs "https://www.example.com/a?p=%2Fx&q=b") = some u2 ∧
      u2.fragment = [] ∧
      ∀ k, valuesGet (parseQuery u2.rawQuery) k =
        (valuesGet (parseQuery (bs "p=/x/&q=b")) k).map
          (fun v => trimSuffixB v (bs "/")) :=
  claim_C1_redirection_query.1 (bs "https://example.com/a?p=/x/&q=b")
    { scheme := bs "https", host := bs "example.com", path := bs "/a",
      rawQuery := bs "p=/x/&q=b", fragment := [] }
    (by decide) (by decide) (by decide) (by decide)
    (bs "https://www.example.com/a?p=%2Fx&q=b") (by decide)
